import Mathlib

/-!
Verification of the cell-tree core of the SWIFT SPH/gravity engine
(`src/cell.c`, `src/collectgroup.c`) against its natural-language
specification.  The C code is shallowly embedded: machine doubles become
exact rationals (`ℚ`), 64-bit integer times become `ℤ`, stateful code
becomes explicit state passing, and external collaborators (the
integrator, the hydro kernels, the gravity P2M/M2M operators, `sqrt`)
become explicit function parameters, since their numerics are outside the
core.  Each embedded function mirrors one C function and keeps its name.
-/

namespace Swift

/-! ## Step Reducer (`src/collectgroup.c`) -/

/-- One per-rank step summary, mirroring `struct mpicollectgroup1`
(collectgroup.c lines 38-43). -/
structure MpiCollectGroup1 where
  updates : ℤ
  g_updates : ℤ
  s_updates : ℤ
  ti_hydro_end_min : ℤ
  ti_gravity_end_min : ℤ
  forcerebuild : Bool
  deriving DecidableEq, Repr

/-- Embedding of `doreduce1` (collectgroup.c lines 180-198): combine two
per-rank summaries into the first. -/
def doreduce1 (g1 g2 : MpiCollectGroup1) : MpiCollectGroup1 :=
  { updates := g1.updates + g2.updates
    g_updates := g1.g_updates + g2.g_updates
    s_updates := g1.s_updates + g2.s_updates
    ti_hydro_end_min := min g1.ti_hydro_end_min g2.ti_hydro_end_min
    ti_gravity_end_min := min g1.ti_gravity_end_min g2.ti_gravity_end_min
    forcerebuild := g1.forcerebuild || g2.forcerebuild }

/-- The engine fields written by `collectgroup1_apply`, mirroring the
subset of `struct engine` touched in collectgroup.c lines 78-92. -/
structure EngineTimes where
  ti_hydro_end_min : ℤ
  ti_hydro_end_max : ℤ
  ti_hydro_beg_max : ℤ
  ti_gravity_end_min : ℤ
  ti_gravity_end_max : ℤ
  ti_gravity_beg_max : ℤ
  ti_end_min : ℤ
  ti_end_max : ℤ
  ti_beg_max : ℤ
  updates : ℤ
  g_updates : ℤ
  s_updates : ℤ
  forcerebuild : Bool
  deriving DecidableEq, Repr

/-- The full collected group, mirroring `struct collectgroup1` as consumed
by `collectgroup1_apply`. -/
structure CollectGroup1 where
  updates : ℤ
  g_updates : ℤ
  s_updates : ℤ
  ti_hydro_end_min : ℤ
  ti_hydro_end_max : ℤ
  ti_hydro_beg_max : ℤ
  ti_gravity_end_min : ℤ
  ti_gravity_end_max : ℤ
  ti_gravity_beg_max : ℤ
  forcerebuild : Bool
  deriving DecidableEq, Repr

/-- Embedding of `collectgroup1_apply` (collectgroup.c lines 78-92). -/
def collectgroup1_apply (grp1 : CollectGroup1) : EngineTimes :=
  { ti_hydro_end_min := grp1.ti_hydro_end_min
    ti_hydro_end_max := grp1.ti_hydro_end_max
    ti_hydro_beg_max := grp1.ti_hydro_beg_max
    ti_gravity_end_min := grp1.ti_gravity_end_min
    ti_gravity_end_max := grp1.ti_gravity_end_max
    ti_gravity_beg_max := grp1.ti_gravity_beg_max
    ti_end_min := min grp1.ti_hydro_end_min grp1.ti_gravity_end_min
    ti_end_max := max grp1.ti_hydro_end_max grp1.ti_gravity_end_max
    ti_beg_max := max grp1.ti_hydro_beg_max grp1.ti_gravity_beg_max
    updates := grp1.updates
    g_updates := grp1.g_updates
    s_updates := grp1.s_updates
    forcerebuild := grp1.forcerebuild }

/-! ## Subtree Lock Manager (`src/cell.c` lines 430-754)

A lock/hold pair for one particle kind.  `cell_locktree`,
`cell_glocktree`, `cell_slocktree` and `cell_mlocktree` share one body,
acting on the field pairs (`lock`,`hold`), (`glock`,`ghold`),
(`slock`,`shold`) and (`mlock`,`mhold`) respectively; we embed the common
body once over the relevant pair.  The cell's ancestor chain is the list
from its parent up to the root.  `lock_trylock` on a free mutex succeeds
and marks it taken; on a taken mutex it fails. -/

structure LockCell where
  lock : Bool
  hold : ℕ
  deriving DecidableEq, Repr

/-- The ancestor climb of `cell_locktree` (cell.c lines 451-463): walk
from the parent towards the root; on each ancestor whose mutex is free,
bump `hold` (the transient trylock/unlock pair nets to a pure `hold`
increment); stop at the first ancestor whose trylock fails.  Returns the
updated chain and whether the top was reached. -/
def climbHold : List LockCell → List LockCell × Bool
  | [] => ([], true)
  | a :: rest =>
    if a.lock then (a :: rest, false)
    else
      let r := climbHold rest
      ({ a with hold := a.hold + 1 } :: r.1, r.2)

/-- The unwind of `cell_locktree` (cell.c lines 474-477): decrement `hold`
on every ancestor strictly below the snag point (the first ancestor whose
mutex is taken). -/
def unwindHold : List LockCell → List LockCell
  | [] => []
  | a :: rest =>
    if a.lock then a :: rest
    else { a with hold := a.hold - 1 } :: unwindHold rest

/-- Embedding of `cell_locktree` (cell.c lines 430-486), acting on the
cell's own lock/hold pair and its ancestor chain.  Returns the C result
code (0 success, 1 busy) and the final state. -/
def cell_locktree (c : LockCell) (ancs : List LockCell) :
    ℕ × LockCell × List LockCell :=
  if c.hold ≠ 0 ∨ c.lock then (1, c, ancs)
  else
    -- mutex acquired; recheck `hold` to resolve the race with a holder
    if c.hold ≠ 0 then (1, c, ancs)
    else
      let r := climbHold ancs
      if r.2 then (0, { c with lock := true }, r.1)
      else (1, c, unwindHold r.1)

/-- Embedding of `cell_unlocktree` (cell.c lines 685-697): release the
cell's mutex, then decrement `hold` on every strict ancestor. -/
def cell_unlocktree (c : LockCell) (ancs : List LockCell) :
    LockCell × List LockCell :=
  ({ c with lock := false }, ancs.map fun a => { a with hold := a.hold - 1 })

theorem unwindHold_climbHold (l : List LockCell) :
    (climbHold l).2 = false → unwindHold (climbHold l).1 = l := by
  induction l with
  | nil => simp [climbHold]
  | cons a rest ih =>
    obtain ⟨la, ha⟩ := a
    cases la with
    | true => simp [climbHold, unwindHold]
    | false =>
      simp only [climbHold, Bool.false_eq_true, if_false]
      intro h
      simp only [unwindHold, Bool.false_eq_true, if_false]
      simp [ih h]

theorem climbHold_success (l : List LockCell) :
    (climbHold l).2 = true →
      (climbHold l).1 = l.map (fun a => { a with hold := a.hold + 1 }) ∧
        ∀ a ∈ l, a.lock = false := by
  induction l with
  | nil => simp [climbHold]
  | cons a rest ih =>
    obtain ⟨la, ha⟩ := a
    cases la with
    | true => simp [climbHold]
    | false =>
      simp only [climbHold, Bool.false_eq_true, if_false]
      intro h
      obtain ⟨h1, h2⟩ := ih h
      refine ⟨by simp [h1], ?_⟩
      intro b hb
      rcases List.mem_cons.mp hb with hb | hb
      · subst hb; rfl
      · exact h2 b hb

/-- Embedding of the grp1-update step of `collectgroup1_reduce`
(collectgroup.c lines 163-168): copy the reduced values back into the
collect group. -/
def collectgroup1_reduce_update (grp : CollectGroup1) (m : MpiCollectGroup1) :
    CollectGroup1 :=
  { grp with
    updates := m.updates
    g_updates := m.g_updates
    s_updates := m.s_updates
    ti_hydro_end_min := m.ti_hydro_end_min
    ti_gravity_end_min := m.ti_gravity_end_min
    forcerebuild := m.forcerebuild }

/-! ## Octant classification in `cell_split` (`src/cell.c` lines 771-1030)

`cell_split` classifies each particle of a window into one of eight
buckets by a 3-bit key computed from its coordinates against the pivot
(the cell centre), then permutes the window in place with a bucket cycle
so that bucket `k` holds exactly the particles whose key is `k`, in
bucket order, and finally hands bucket `k` to progeny `k`.  We embed the
classifiers verbatim and the net effect of the bucket cycle (the stable
bucketed layout); positions are the only particle data the claim needs,
so a particle is its coordinate triple. -/

/-- Coordinates of one particle, as read from the sorting buffer. -/
structure Pos where
  x0 : ℚ
  x1 : ℚ
  x2 : ℚ
  deriving DecidableEq, Repr

/-- The `part` classifier of `cell_split` (cell.c lines 806-811):
`(x[0] >= pivot[0])*4 + (x[1] >= pivot[1])*2 + (x[2] >= pivot[2])`. -/
def bid_part (pivot p : Pos) : ℕ :=
  (if p.x0 ≥ pivot.x0 then 1 else 0) * 4 +
    (if p.x1 ≥ pivot.x1 then 1 else 0) * 2 +
    (if p.x2 ≥ pivot.x2 then 1 else 0)

/-- The `spart` classifier of `cell_split` (cell.c lines 925-930):
`(x[0] > pivot[0])*4 + (x[1] > pivot[1])*2 + (x[2] > pivot[2])`. -/
def bid_spart (pivot p : Pos) : ℕ :=
  (if p.x0 > pivot.x0 then 1 else 0) * 4 +
    (if p.x1 > pivot.x1 then 1 else 0) * 2 +
    (if p.x2 > pivot.x2 then 1 else 0)

/-- The `gpart` classifier of `cell_split` (cell.c lines 977-983):
`(x[0] > pivot[0])*4 + (x[1] > pivot[1])*2 + (x[2] > pivot[2])`. -/
def bid_gpart (pivot p : Pos) : ℕ :=
  (if p.x0 > pivot.x0 then 1 else 0) * 4 +
    (if p.x1 > pivot.x1 then 1 else 0) * 2 +
    (if p.x2 > pivot.x2 then 1 else 0)

/-- Net effect of the in-place bucket cycle of `cell_split` on one
particle window: the particles whose key is `k`, handed to progeny `k`
(cell.c lines 820-853, 939-968, 992-1021). -/
def splitWindow (bid : Pos → ℕ) (l : List Pos) (k : ℕ) : List Pos :=
  l.filter fun p => bid p = k

/-- The reordered window after the bucket cycle: bucket 0 through 7 in
order, each holding its classified particles. -/
def splitLayout (bid : Pos → ℕ) (l : List Pos) : List Pos :=
  (List.range 8).flatMap fun k => splitWindow bid l k

/-- The spec's `axis` map from bit index to coordinate axis: bit 2 is
driven by `x[0]`, bit 1 by `x[1]`, bit 0 by `x[2]`. -/
def axisCoord (p : Pos) (b : ℕ) : ℚ :=
  if b = 2 then p.x0 else if b = 1 then p.x1 else p.x2

/-- Pivot coordinate along the axis of bit `b`. -/
def axisPivot (pivot : Pos) (b : ℕ) : ℚ := axisCoord pivot b

theorem testBit_bid (A B C : Bool) :
    Nat.testBit ((if A = true then 1 else 0) * 4 +
        (if B = true then 1 else 0) * 2 +
        (if C = true then 1 else 0)) 2 = A ∧
      Nat.testBit ((if A = true then 1 else 0) * 4 +
        (if B = true then 1 else 0) * 2 +
        (if C = true then 1 else 0)) 1 = B ∧
      Nat.testBit ((if A = true then 1 else 0) * 4 +
        (if B = true then 1 else 0) * 2 +
        (if C = true then 1 else 0)) 0 = C := by
  cases A <;> cases B <;> cases C <;> decide

theorem testBit_bid_witness :
    Nat.testBit 5 2 = true ∧ Nat.testBit 5 1 = false ∧
      Nat.testBit 5 0 = true := by
  have h := testBit_bid true false true
  simpa using h

/-- Bit `b` of the `part` key is the `≥ pivot` test on axis `b`. -/
theorem bid_part_testBit (pivot p : Pos) (b : ℕ) (hb : b < 3) :
    Nat.testBit (bid_part pivot p) b =
      decide (axisCoord p b ≥ axisPivot pivot b) := by
  unfold bid_part axisCoord axisPivot
  interval_cases b
  · have h := (testBit_bid (decide (p.x0 ≥ pivot.x0))
      (decide (p.x1 ≥ pivot.x1)) (decide (p.x2 ≥ pivot.x2))).2.2
    simpa using h
  · have h := (testBit_bid (decide (p.x0 ≥ pivot.x0))
      (decide (p.x1 ≥ pivot.x1)) (decide (p.x2 ≥ pivot.x2))).2.1
    simpa using h
  · have h := (testBit_bid (decide (p.x0 ≥ pivot.x0))
      (decide (p.x1 ≥ pivot.x1)) (decide (p.x2 ≥ pivot.x2))).1
    simpa using h

/-- Bit `b` of the `gpart`/`spart` key is the strict `> pivot` test on
axis `b`. -/
theorem bid_gpart_testBit (pivot p : Pos) (b : ℕ) (hb : b < 3) :
    Nat.testBit (bid_gpart pivot p) b =
      decide (axisCoord p b > axisPivot pivot b) := by
  unfold bid_gpart axisCoord axisPivot
  interval_cases b
  · have h := (testBit_bid (decide (p.x0 > pivot.x0))
      (decide (p.x1 > pivot.x1)) (decide (p.x2 > pivot.x2))).2.2
    simpa using h
  · have h := (testBit_bid (decide (p.x0 > pivot.x0))
      (decide (p.x1 > pivot.x1)) (decide (p.x2 > pivot.x2))).2.1
    simpa using h
  · have h := (testBit_bid (decide (p.x0 > pivot.x0))
      (decide (p.x1 > pivot.x1)) (decide (p.x2 > pivot.x2))).1
    simpa using h

theorem mem_splitWindow_bid {bid : Pos → ℕ} {l : List Pos} {k : ℕ}
    {p : Pos} (h : p ∈ splitWindow bid l k) : bid p = k := by
  have := List.of_mem_filter h
  simpa using this

theorem bid_spart_eq_bid_gpart : bid_spart = bid_gpart := rfl

/-- C1 (counterexample).  A gravity particle sitting exactly on the pivot
is placed by `cell_split` into progeny 0 (its classifier uses strict `>`,
cell.c lines 977-983), yet bit 2 of 0 is not `(p.x[0] ≥ pivot[0])`: the
three windows are not all classified by the `≥` test the claim states. -/
theorem claim_C1_counterexample :
    (⟨0, 0, 0⟩ : Pos) ∈
        splitWindow (bid_gpart ⟨0, 0, 0⟩) [⟨0, 0, 0⟩] 0 ∧
      Nat.testBit 0 2 ≠
        decide (axisCoord (⟨0, 0, 0⟩ : Pos) 2 ≥
          axisPivot (⟨0, 0, 0⟩ : Pos) 2) := by
  constructor
  · simp [splitWindow, bid_gpart]
  · simp [axisCoord, axisPivot]

/-- C1 (amended).  After `cell_split` with pivot the cell centre, every
gas particle placed into progeny `k` satisfies: bit `b` of `k` equals
`(p.x[axis(b)] ≥ pivot[axis(b)])`; every gravity and every star particle
placed into progeny `k` instead satisfies the strict test: bit `b` of `k`
equals `(p.x[axis(b)] > pivot[axis(b)])`. -/
theorem claim_C1 (pivot : Pos) (l : List Pos) (k b : ℕ) (hb : b < 3) :
    (∀ p ∈ splitWindow (bid_part pivot) l k,
        Nat.testBit k b = decide (axisCoord p b ≥ axisPivot pivot b)) ∧
      (∀ p ∈ splitWindow (bid_gpart pivot) l k,
        Nat.testBit k b = decide (axisCoord p b > axisPivot pivot b)) ∧
      (∀ p ∈ splitWindow (bid_spart pivot) l k,
        Nat.testBit k b = decide (axisCoord p b > axisPivot pivot b)) := by
  refine ⟨?_, ?_, ?_⟩
  · intro p hp
    rw [← mem_splitWindow_bid hp]
    exact bid_part_testBit pivot p b hb
  · intro p hp
    rw [← mem_splitWindow_bid hp]
    exact bid_gpart_testBit pivot p b hb
  · intro p hp
    rw [← mem_splitWindow_bid hp]
    rw [bid_spart_eq_bid_gpart]
    exact bid_gpart_testBit pivot p b hb

/-- Witness for C1 at a concrete window, progeny and bit. -/
theorem claim_C1_witness :
    0 < 3 ∧
      ((∀ p ∈ splitWindow (bid_part ⟨0, 0, 0⟩) [⟨1, 2, 3⟩] 7,
          Nat.testBit 7 0 =
            decide (axisCoord p 0 ≥ axisPivot ⟨0, 0, 0⟩ 0)) ∧
        (∀ p ∈ splitWindow (bid_gpart ⟨0, 0, 0⟩) [⟨1, 2, 3⟩] 7,
          Nat.testBit 7 0 =
            decide (axisCoord p 0 > axisPivot ⟨0, 0, 0⟩ 0)) ∧
        (∀ p ∈ splitWindow (bid_spart ⟨0, 0, 0⟩) [⟨1, 2, 3⟩] 7,
          Nat.testBit 7 0 =
            decide (axisCoord p 0 > axisPivot ⟨0, 0, 0⟩ 0))) :=
  ⟨by norm_num, claim_C1 ⟨0, 0, 0⟩ [⟨1, 2, 3⟩] 7 0 (by norm_num)⟩

/-- C2: whenever `cell_locktree` (and, sharing the same body over the
other lock/hold field pairs, its gpart/spart/multipole variants) returns
busy (1), the lock state is unchanged: the caller does not hold the
cell's mutex and every strict ancestor's hold counter keeps its value,
the unwind having decremented exactly the bumped ancestors. -/
theorem claim_C2 (c : LockCell) (ancs : List LockCell) (c' : LockCell)
    (ancs' : List LockCell)
    (h : cell_locktree c ancs = (1, c', ancs')) :
    c' = c ∧ ancs' = ancs := by
  unfold cell_locktree at h
  by_cases h1 : c.hold ≠ 0 ∨ c.lock
  · simp only [h1, if_true, Prod.mk.injEq] at h
    exact ⟨h.2.1.symm, h.2.2.symm⟩
  · simp only [h1, if_false] at h
    have hhold : ¬c.hold ≠ 0 := fun hc => h1 (Or.inl hc)
    simp only [hhold, if_false] at h
    by_cases h2 : (climbHold ancs).2
    · simp only [h2, if_true, Prod.mk.injEq] at h
      exact absurd h.1 (by norm_num)
    · simp only [h2, Bool.false_eq_true, if_false, Prod.mk.injEq] at h
      refine ⟨h.2.1.symm, ?_⟩
      have hu := unwindHold_climbHold ancs (Bool.eq_false_iff.mpr h2)
      rw [← h.2.2, hu]

/-- Witness for C2: locking a cell whose mutex is already taken fails and
leaves the state alone. -/
theorem claim_C2_witness :
    cell_locktree ⟨true, 0⟩ [⟨false, 5⟩] = (1, ⟨true, 0⟩, [⟨false, 5⟩]) ∧
      (⟨true, 0⟩ : LockCell) = ⟨true, 0⟩ ∧
        [(⟨false, 5⟩ : LockCell)] = [⟨false, 5⟩] :=
  ⟨by decide, claim_C2 ⟨true, 0⟩ [⟨false, 5⟩] ⟨true, 0⟩ [⟨false, 5⟩]
    (by decide)⟩

/-- C7: after a successful `cell_locktree` (and likewise for the
gpart/spart/multipole variants, which share this body over their own
lock/hold fields), the matching `cell_unlocktree` restores the whole
chain: every strict ancestor's hold counter returns to its value before
the lock, each having been incremented exactly once by the lock and
decremented exactly once by the unlock. -/
theorem claim_C7 (c : LockCell) (ancs : List LockCell) (c' : LockCell)
    (ancs' : List LockCell)
    (h : cell_locktree c ancs = (0, c', ancs')) :
    cell_unlocktree c' ancs' = (c, ancs) := by
  unfold cell_locktree at h
  by_cases h1 : c.hold ≠ 0 ∨ c.lock
  · simp only [h1, if_true, Prod.mk.injEq] at h
    exact absurd h.1 (by norm_num)
  · simp only [h1, if_false] at h
    have hhold : ¬c.hold ≠ 0 := fun hc => h1 (Or.inl hc)
    simp only [hhold, if_false] at h
    by_cases h2 : (climbHold ancs).2
    · simp only [h2, if_true, Prod.mk.injEq] at h
      have hc' : c' = { c with lock := true } := h.2.1.symm
      have ha' : ancs' = (climbHold ancs).1 := h.2.2.symm
      have hclock : c.lock = false := by
        rcases Bool.eq_false_or_eq_true c.lock with hl | hl
        · exact absurd (Or.inr hl) h1
        · exact hl
      obtain ⟨hmap, _⟩ := climbHold_success ancs h2
      rw [hc', ha', hmap]
      unfold cell_unlocktree
      rw [Prod.mk.injEq]
      constructor
      · obtain ⟨cl, ch⟩ := c
        simp only at hclock
        rw [hclock]
      · rw [List.map_map]
        have hcomp : ((fun a : LockCell => { a with hold := a.hold - 1 }) ∘
            fun a : LockCell => { a with hold := a.hold + 1 }) = id := by
          funext a
          simp
        rw [hcomp, List.map_id]
    · simp only [h2, Bool.false_eq_true, if_false, Prod.mk.injEq] at h
      exact absurd h.1 (by norm_num)

/-- Witness for C7 on a two-deep ancestor chain. -/
theorem claim_C7_witness :
    cell_locktree ⟨false, 0⟩ [⟨false, 5⟩, ⟨false, 1⟩] =
        (0, ⟨true, 0⟩, [⟨false, 6⟩, ⟨false, 2⟩]) ∧
      cell_unlocktree ⟨true, 0⟩ [⟨false, 6⟩, ⟨false, 2⟩] =
        (⟨false, 0⟩, [⟨false, 5⟩, ⟨false, 1⟩]) :=
  ⟨by decide, claim_C7 ⟨false, 0⟩ [⟨false, 5⟩, ⟨false, 1⟩] ⟨true, 0⟩
    [⟨false, 6⟩, ⟨false, 2⟩] (by decide)⟩

/-- C10: the step-reducer combine (`doreduce1`) sums the three update
counts, takes the minimum of `ti_hydro_end_min` and of
`ti_gravity_end_min`, and ORs the rebuild flags; applying the combined
result (`collectgroup1_apply` after `collectgroup1_reduce`) sets the
engine's `ti_end_min` to the minimum of the combined hydro and gravity
end-min values. -/
theorem claim_C10 (g1 g2 : MpiCollectGroup1) (grp : CollectGroup1) :
    (doreduce1 g1 g2).updates = g1.updates + g2.updates ∧
      (doreduce1 g1 g2).g_updates = g1.g_updates + g2.g_updates ∧
      (doreduce1 g1 g2).s_updates = g1.s_updates + g2.s_updates ∧
      (doreduce1 g1 g2).ti_hydro_end_min =
        min g1.ti_hydro_end_min g2.ti_hydro_end_min ∧
      (doreduce1 g1 g2).ti_gravity_end_min =
        min g1.ti_gravity_end_min g2.ti_gravity_end_min ∧
      (doreduce1 g1 g2).forcerebuild =
        (g1.forcerebuild || g2.forcerebuild) ∧
      (collectgroup1_apply
            (collectgroup1_reduce_update grp (doreduce1 g1 g2))).ti_end_min =
        min (doreduce1 g1 g2).ti_hydro_end_min
          (doreduce1 g1 g2).ti_gravity_end_min :=
  ⟨rfl, rfl, rfl, rfl, rfl, rfl, rfl⟩

/-! ## The cell tree (`struct cell`, `src/cell.h` as used by `cell.c`)

Only the fields `cell.c` reads or writes are modelled.  Particle state the
core hands to external collaborators (integrator, hydro kernels, gravity
P2M) is collapsed into an opaque `rest` component those collaborators
transform.  Progeny are the eight slots `progeny[0..7]`, each present or
absent, kept as an explicit list of slots so the octant index is the list
position. -/

/-- Gas particle fields `cell.c` touches: the smoothing length `h` is
read, clamped and folded; everything else is collaborator state. -/
structure Part where
  h : ℚ
  rest : ℤ
  deriving DecidableEq, Repr

/-- Extended gas particle: cumulative displacements since rebuild and
since last sort, read back after the integrator drifts them. -/
structure XPart where
  x_diff0 : ℚ
  x_diff1 : ℚ
  x_diff2 : ℚ
  x_diff_sort0 : ℚ
  x_diff_sort1 : ℚ
  x_diff_sort2 : ℚ
  deriving DecidableEq, Repr

/-- Gravity particle: position and mass (consumed by P2M), cumulative
displacement, and collaborator state. -/
structure GPart where
  x0 : ℚ
  x1 : ℚ
  x2 : ℚ
  mass : ℚ
  x_diff0 : ℚ
  x_diff1 : ℚ
  x_diff2 : ℚ
  rest : ℤ
  deriving DecidableEq, Repr

/-- Star particle: `cell.c` only passes it whole to the integrator. -/
structure SPart where
  rest : ℤ
  deriving DecidableEq, Repr

/-- The per-cell gravity expansion (`struct gravity_tensors`): `cell.c`
itself reads and writes only the monopole mass `M_000`, the centre of
mass and the conservative radius `r_max`; higher-order coefficients live
behind the external P2M/M2M/add operators. -/
structure Multipole where
  M_000 : ℚ
  CoM0 : ℚ
  CoM1 : ℚ
  CoM2 : ℚ
  r_max : ℚ
  deriving DecidableEq, Repr

/-- The scalar fields of one cell. -/
structure CellFields where
  split : Bool
  loc0 : ℚ
  loc1 : ℚ
  loc2 : ℚ
  width0 : ℚ
  width1 : ℚ
  width2 : ℚ
  dmin : ℚ
  depth : ℤ
  h_max : ℚ
  dx_max_part : ℚ
  dx_max_sort : ℚ
  dx_max_gpart : ℚ
  ti_old_part : ℤ
  ti_old_gpart : ℤ
  ti_old_multipole : ℤ
  ti_hydro_end_min : ℤ
  ti_hydro_end_max : ℤ
  ti_gravity_end_min : ℤ
  ti_gravity_end_max : ℤ
  count : ℤ
  gcount : ℤ
  scount : ℤ
  do_drift : Bool
  do_sub_drift : Bool
  do_grav_drift : Bool
  do_grav_sub_drift : Bool
  nodeID : ℤ
  parts : List (Part × XPart)
  gparts : List GPart
  sparts : List SPart
  mult : Multipole

/-- An all-zero cell record, standing for a cell freshly handed out by
the Space pool. -/
def baseFields : CellFields :=
  { split := false, loc0 := 0, loc1 := 0, loc2 := 0, width0 := 0
    width1 := 0, width2 := 0, dmin := 0, depth := 0, h_max := 0
    dx_max_part := 0, dx_max_sort := 0, dx_max_gpart := 0, ti_old_part := 0
    ti_old_gpart := 0, ti_old_multipole := 0, ti_hydro_end_min := 0
    ti_hydro_end_max := 0, ti_gravity_end_min := 0, ti_gravity_end_max := 0
    count := 0, gcount := 0, scount := 0, do_drift := false
    do_sub_drift := false, do_grav_drift := false
    do_grav_sub_drift := false, nodeID := 0, parts := [], gparts := []
    sparts := [], mult := ⟨0, 0, 0, 0, 0⟩ }

mutual
inductive Cell where
  | mk (f : CellFields) (prog : Progs)
inductive Progs where
  | pnil
  | pnone (tl : Progs)
  | psome (c : Cell) (tl : Progs)
end

def Cell.f : Cell → CellFields
  | .mk f _ => f

def Cell.prog : Cell → Progs
  | .mk _ p => p

theorem Cell.f_mk (f : CellFields) (p : Progs) : (Cell.mk f p).f = f := rfl

theorem Cell.prog_mk (f : CellFields) (p : Progs) :
    (Cell.mk f p).prog = p := rfl

/-! ## C4: rebuild propagation through the unskip operations -/

/-- Task types reaching the density and gravity link lists. -/
inductive TaskType where
  | tself
  | tpair
  | tsub_self
  | tsub_pair
  deriving DecidableEq, Repr

/-- One task stub from a cell's link list: its type and the two cells. -/
structure LinkedTask where
  ttype : TaskType
  ci : Cell
  cj : Option Cell

/-- Modelled from the spec: `cell_need_rebuild_for_pair` is declared in
`cell.h`, which is not part of the provided sources; the spec's rebuild
test answers yes when either cell's `dx_max_sort` exceeds the configured
fraction `space_maxreldx` of its `dmin`, or the neighbour-pair geometric
invariant fails (smoothing-length reach plus accumulated particle motion
exceeding the buffer between the cells). -/
def cell_need_rebuild_for_pair (space_maxreldx kernel_gamma : ℚ)
    (ci cj : Cell) : Bool :=
  (ci.f.dx_max_sort > space_maxreldx * ci.f.dmin) ||
    (cj.f.dx_max_sort > space_maxreldx * cj.f.dmin) ||
    (kernel_gamma * max ci.f.h_max cj.f.h_max + ci.f.dx_max_part +
        cj.f.dx_max_part > min ci.f.dmin cj.f.dmin)

/-- The rebuild test as applied to one linked task by
`cell_unskip_hydro_tasks` (cell.c lines 1762-1766): only `pair` and
`sub_pair` tasks are examined. -/
def taskNeedsRebuild (space_maxreldx kernel_gamma : ℚ)
    (t : LinkedTask) : Bool :=
  (t.ttype = TaskType.tpair ∨ t.ttype = TaskType.tsub_pair) &&
    match t.cj with
    | some cj => cell_need_rebuild_for_pair space_maxreldx kernel_gamma t.ci cj
    | none => false

/-- The rebuild return value of `cell_unskip_hydro_tasks` (cell.c lines
1715-1874): `rebuild` starts at 0 and is set to 1 by every linked `pair`
or `sub_pair` density task whose rebuild test answers yes. -/
def cell_unskip_hydro_tasks_rebuild (space_maxreldx kernel_gamma : ℚ)
    (density : List LinkedTask) : ℕ :=
  density.foldl
    (fun rebuild t =>
      if taskNeedsRebuild space_maxreldx kernel_gamma t then 1 else rebuild)
    0

/-- The rebuild return value of `cell_unskip_gravity_tasks` (cell.c lines
1885-1986): `rebuild` is initialised to 0 and never assigned afterwards,
so the function returns 0 on every input. -/
def cell_unskip_gravity_tasks_rebuild (grav : List LinkedTask) : ℕ := 0

theorem foldl_rebuild_one (P : LinkedTask → Bool) (l : List LinkedTask) :
    l.foldl (fun rebuild t => if P t then 1 else rebuild) 1 = 1 := by
  induction l with
  | nil => rfl
  | cons hd tl ih =>
    by_cases h : P hd <;> simp [List.foldl_cons, h, ih]

theorem foldl_rebuild_any (P : LinkedTask → Bool) (l : List LinkedTask) :
    l.foldl (fun rebuild t => if P t then 1 else rebuild) 0 =
      if l.any P then 1 else 0 := by
  induction l with
  | nil => rfl
  | cons hd tl ih =>
    by_cases h : P hd
    · simp [List.foldl_cons, h, foldl_rebuild_one]
    · simp [List.foldl_cons, h, ih]

/-- C4 (counterexample) helper: a cell whose `dx_max_sort` grossly exceeds
`space_maxreldx · dmin`. -/
def cexMoved : Cell :=
  .mk { baseFields with dx_max_sort := 10, dmin := 1 } .pnil

/-- C4 (counterexample) helper: an unremarkable partner cell. -/
def cexStill : Cell :=
  .mk { baseFields with dmin := 1 } .pnil

/-- C4 (counterexample).  A gravity pair task whose cells violate the
rebuild test: `cell_unskip_gravity_tasks` still returns 0, because its
`rebuild` variable is initialised to 0 and never assigned (cell.c lines
1885-1986); the claimed propagation holds only for the hydro unskip. -/
theorem claim_C4_counterexample :
    taskNeedsRebuild 1 1 ⟨TaskType.tpair, cexMoved, some cexStill⟩ = true ∧
      cell_unskip_gravity_tasks_rebuild
        [⟨TaskType.tpair, cexMoved, some cexStill⟩] = 0 := by
  constructor
  · simp only [taskNeedsRebuild, cell_need_rebuild_for_pair, cexMoved,
      cexStill, Cell.f, baseFields]
    norm_num
  · rfl

/-- C4 (amended).  The hydro unskip returns 1 exactly when some linked
`pair` or `sub_pair` density task fails the rebuild test (and 0
otherwise); the gravity unskip always returns 0, never reporting a
rebuild. -/
theorem claim_C4 (space_maxreldx kernel_gamma : ℚ)
    (density grav : List LinkedTask) :
    (cell_unskip_hydro_tasks_rebuild space_maxreldx kernel_gamma density =
        if ∃ t ∈ density,
            taskNeedsRebuild space_maxreldx kernel_gamma t = true
        then 1 else 0) ∧
      cell_unskip_gravity_tasks_rebuild grav = 0 := by
  constructor
  · rw [cell_unskip_hydro_tasks_rebuild,
      foldl_rebuild_any (taskNeedsRebuild space_maxreldx kernel_gamma)]
    simp only [List.any_eq_true]
  · rfl

/-! ## Multipole Maintainer: `cell_make_multipoles` (`src/cell.c` lines
1229-1311)

The function rebuilds the expansion of one cell from its progeny's stored
expansions (split cell) or from its own gravity particles (leaf).  The
machine `sqrt` is abstracted as a function parameter `rsqrt`; the
external gravity operators are modelled from the spec where they touch
the fields `cell.c` reads back. -/

def Progs.toList : Progs → List (Option Cell)
  | .pnil => []
  | .pnone tl => none :: tl.toList
  | .psome c tl => some c :: tl.toList

/-- The present progeny of a cell, in slot order (the C loops
`for (k = 0; k < 8; k++) if (c->progeny[k] != NULL)`). -/
def presentChildren (p : Progs) : List Cell :=
  p.toList.filterMap id

/-- One axis of the conservative corner distance (cell.c lines 1274-1282
and 1291-1299): the larger of the distances from the CoM coordinate to
the two cell faces on this axis. -/
def cornerAxisDist (rCoM loc width : ℚ) : ℚ :=
  if rCoM > loc + width / 2 then rCoM - loc else loc + width - rCoM

/-- Modelled from the spec: `gravity_P2M` (external Gravity collaborator,
declared in `multipole.h`, not among the provided sources) populates the
expansion from the particle window and sets the CoM to the
particle-weighted centroid; `cell.c` reads back `CoM` and `M_000` (the
total mass). -/
def gravity_P2M (gparts : List GPart) : ℚ × ℚ × ℚ × ℚ :=
  let mass := (gparts.map GPart.mass).sum
  (mass,
    (gparts.map fun g => g.x0 * g.mass).sum / mass,
    (gparts.map fun g => g.x1 * g.mass).sum / mass,
    (gparts.map fun g => g.x2 * g.mass).sum / mass)

/-- Embedding of `cell_make_multipoles` (cell.c lines 1229-1311).  The
function touches only the cell's own `multipole` and
`ti_old_multipole`; despite its name it does not recurse — it reads the
progeny's stored multipoles.  The external `gravity_M2M` /
`gravity_multipole_add` pair is modelled from the spec: shifting an
expansion to the parent CoM and accumulating leaves the monopole mass as
the sum of the children's masses. -/
def splitMass (kids : List Cell) : ℚ :=
  (kids.map fun cp => cp.f.mult.M_000).sum

/-- The mass-weighted CoM of the progeny (cell.c lines 1236-1251). -/
def splitCoM0 (kids : List Cell) : ℚ :=
  (kids.map fun cp => cp.f.mult.CoM0 * cp.f.mult.M_000).sum / splitMass kids

def splitCoM1 (kids : List Cell) : ℚ :=
  (kids.map fun cp => cp.f.mult.CoM1 * cp.f.mult.M_000).sum / splitMass kids

def splitCoM2 (kids : List Cell) : ℚ :=
  (kids.map fun cp => cp.f.mult.CoM2 * cp.f.mult.M_000).sum / splitMass kids

def cell_make_multipoles (rsqrt : ℚ → ℚ) (c : Cell) (ti_current : ℤ) :
    Cell :=
  let f := c.f
  if f.split then
    let kids := presentChildren c.prog
    let com0 := splitCoM0 kids
    let com1 := splitCoM1 kids
    let com2 := splitCoM2 kids
    let r_max := kids.foldl
      (fun r cp =>
        let dx := com0 - cp.f.mult.CoM0
        let dy := com1 - cp.f.mult.CoM1
        let dz := com2 - cp.f.mult.CoM2
        max r (cp.f.mult.r_max + rsqrt (dx * dx + dy * dy + dz * dz))) 0
    let dx := cornerAxisDist com0 f.loc0 f.width0
    let dy := cornerAxisDist com1 f.loc1 f.width1
    let dz := cornerAxisDist com2 f.loc2 f.width2
    .mk { f with
      mult := ⟨splitMass kids, com0, com1, com2,
        min r_max (rsqrt (dx * dx + dy * dy + dz * dz))⟩
      ti_old_multipole := ti_current } c.prog
  else if 0 < f.gcount then
    let p := gravity_P2M f.gparts
    let dx := cornerAxisDist p.2.1 f.loc0 f.width0
    let dy := cornerAxisDist p.2.2.1 f.loc1 f.width1
    let dz := cornerAxisDist p.2.2.2 f.loc2 f.width2
    .mk { f with
      mult := ⟨p.1, p.2.1, p.2.2.1, p.2.2.2,
        rsqrt (dx * dx + dy * dy + dz * dz)⟩
      ti_old_multipole := ti_current } c.prog
  else
    .mk { f with
      mult := ⟨0, f.loc0 + f.width0 / 2, f.loc1 + f.width1 / 2,
        f.loc2 + f.width2 / 2, 0⟩
      ti_old_multipole := ti_current } c.prog

/-- Spec-side reading of bound (i): the maximum over present children of
`child.r_max` plus the distance from the parent CoM to the child CoM. -/
def specChildRmaxBound (rsqrt : ℚ → ℚ) (com0 com1 com2 : ℚ)
    (kids : List Cell) : ℚ :=
  (kids.map fun cp =>
    cp.f.mult.r_max +
      rsqrt ((com0 - cp.f.mult.CoM0) * (com0 - cp.f.mult.CoM0) +
        (com1 - cp.f.mult.CoM1) * (com1 - cp.f.mult.CoM1) +
        (com2 - cp.f.mult.CoM2) * (com2 - cp.f.mult.CoM2))).foldr max 0

/-- Squared distance from a point to one corner of the cell box. -/
def cornerDistSq (com0 com1 com2 cx cy cz : ℚ) : ℚ :=
  (com0 - cx) * (com0 - cx) + (com1 - cy) * (com1 - cy) +
    (com2 - cz) * (com2 - cz)

/-- Spec-side reading of bound (ii): the maximum distance from the parent
CoM to the eight corners of the parent cell. -/
def specMaxCornerDist (rsqrt : ℚ → ℚ) (com0 com1 com2 : ℚ)
    (f : CellFields) : ℚ :=
  max
    (max
      (max (rsqrt (cornerDistSq com0 com1 com2 f.loc0 f.loc1 f.loc2))
        (rsqrt (cornerDistSq com0 com1 com2 f.loc0 f.loc1
          (f.loc2 + f.width2))))
      (max (rsqrt (cornerDistSq com0 com1 com2 f.loc0 (f.loc1 + f.width1)
          f.loc2))
        (rsqrt (cornerDistSq com0 com1 com2 f.loc0 (f.loc1 + f.width1)
          (f.loc2 + f.width2)))))
    (max
      (max (rsqrt (cornerDistSq com0 com1 com2 (f.loc0 + f.width0) f.loc1
          f.loc2))
        (rsqrt (cornerDistSq com0 com1 com2 (f.loc0 + f.width0) f.loc1
          (f.loc2 + f.width2))))
      (max (rsqrt (cornerDistSq com0 com1 com2 (f.loc0 + f.width0)
          (f.loc1 + f.width1) f.loc2))
        (rsqrt (cornerDistSq com0 com1 com2 (f.loc0 + f.width0)
          (f.loc1 + f.width1) (f.loc2 + f.width2)))))

theorem foldr_max_pull (x a : ℚ) (l : List ℚ) :
    l.foldr max (max a x) = max x (l.foldr max a) := by
  induction l with
  | nil => simp [max_comm]
  | cons y tl ih => simp [List.foldr_cons, ih, max_left_comm]

theorem foldl_max_eq_foldr (l : List ℚ) (a : ℚ) :
    l.foldl max a = l.foldr max a := by
  induction l generalizing a with
  | nil => rfl
  | cons x tl ih =>
    rw [List.foldl_cons, List.foldr_cons, ih, foldr_max_pull]

theorem cornerAxisDist_sq (c l w : ℚ) (hw : 0 ≤ w) :
    max ((c - l) * (c - l)) ((c - (l + w)) * (c - (l + w))) =
      cornerAxisDist c l w * cornerAxisDist c l w := by
  unfold cornerAxisDist
  by_cases h : c > l + w / 2
  · rw [if_pos h, max_eq_left (by nlinarith)]
  · rw [if_neg h, max_eq_right (by push_neg at h; nlinarith)]
    ring

theorem rsqrt_max (rsqrt : ℚ → ℚ)
    (hmono : ∀ a b : ℚ, 0 ≤ a → a ≤ b → rsqrt a ≤ rsqrt b)
    {a b : ℚ} (ha : 0 ≤ a) (hb : 0 ≤ b) :
    max (rsqrt a) (rsqrt b) = rsqrt (max a b) := by
  rcases le_total a b with h | h
  · rw [max_eq_right h, max_eq_right (hmono a b ha h)]
  · rw [max_eq_left h, max_eq_left (hmono b a hb h)]

theorem max_corner_sum (x0 x1 y0 y1 z0 z1 : ℚ) :
    max
        (max (max (x0 + y0 + z0) (x0 + y0 + z1))
          (max (x0 + y1 + z0) (x0 + y1 + z1)))
        (max (max (x1 + y0 + z0) (x1 + y0 + z1))
          (max (x1 + y1 + z0) (x1 + y1 + z1))) =
      max x0 x1 + max y0 y1 + max z0 z1 := by
  simp only [max_add_add_left, max_add_add_right]

/-- The eight-corner maximum distance collapses to the per-axis
conditional computed by cell.c lines 1274-1285, provided `rsqrt` is
monotone on nonnegative arguments (true of the machine `sqrt`). -/
theorem specMaxCornerDist_eq (rsqrt : ℚ → ℚ)
    (hmono : ∀ a b : ℚ, 0 ≤ a → a ≤ b → rsqrt a ≤ rsqrt b)
    (com0 com1 com2 : ℚ) (f : CellFields) (h0 : 0 ≤ f.width0)
    (h1 : 0 ≤ f.width1) (h2 : 0 ≤ f.width2) :
    specMaxCornerDist rsqrt com0 com1 com2 f =
      rsqrt
        (cornerAxisDist com0 f.loc0 f.width0 *
            cornerAxisDist com0 f.loc0 f.width0 +
          cornerAxisDist com1 f.loc1 f.width1 *
            cornerAxisDist com1 f.loc1 f.width1 +
          cornerAxisDist com2 f.loc2 f.width2 *
            cornerAxisDist com2 f.loc2 f.width2) := by
  have hsq : ∀ u v w : ℚ, 0 ≤ u * u + v * v + w * w := by
    intro u v w
    nlinarith [mul_self_nonneg u, mul_self_nonneg v, mul_self_nonneg w]
  have hmax2 : ∀ a b : ℚ, 0 ≤ a → 0 ≤ b → (0 : ℚ) ≤ max a b := by
    intro a b ha hb
    exact le_max_of_le_left ha
  unfold specMaxCornerDist cornerDistSq
  rw [rsqrt_max rsqrt hmono (hsq _ _ _) (hsq _ _ _),
    rsqrt_max rsqrt hmono (hsq _ _ _) (hsq _ _ _),
    rsqrt_max rsqrt hmono (hsq _ _ _) (hsq _ _ _),
    rsqrt_max rsqrt hmono (hsq _ _ _) (hsq _ _ _),
    rsqrt_max rsqrt hmono (hmax2 _ _ (hsq _ _ _) (hsq _ _ _))
      (hmax2 _ _ (hsq _ _ _) (hsq _ _ _)),
    rsqrt_max rsqrt hmono (hmax2 _ _ (hsq _ _ _) (hsq _ _ _))
      (hmax2 _ _ (hsq _ _ _) (hsq _ _ _)),
    rsqrt_max rsqrt hmono
      (hmax2 _ _ (hmax2 _ _ (hsq _ _ _) (hsq _ _ _))
        (hmax2 _ _ (hsq _ _ _) (hsq _ _ _)))
      (hmax2 _ _ (hmax2 _ _ (hsq _ _ _) (hsq _ _ _))
        (hmax2 _ _ (hsq _ _ _) (hsq _ _ _))),
    max_corner_sum,
    cornerAxisDist_sq com0 f.loc0 f.width0 h0,
    cornerAxisDist_sq com1 f.loc1 f.width1 h1,
    cornerAxisDist_sq com2 f.loc2 f.width2 h2]

/-- C8: after `cell_make_multipoles(c, t)`, a split cell's `r_max` is the
minimum of (i) the maximum over present children of `child.r_max` plus
the distance from the parent CoM to the child CoM and (ii) the maximum
distance from the parent CoM to the eight corners of the cell; a leaf
with no gravity particles gets a zeroed expansion, CoM at the cell centre
and `r_max = 0`; and in every case `ti_old_multipole` is set to `t`.
`rsqrt` abstracts the machine square root, monotone on its (nonnegative)
inputs. -/
theorem claim_C8 (rsqrt : ℚ → ℚ) (c : Cell) (t : ℤ)
    (hmono : ∀ a b : ℚ, 0 ≤ a → a ≤ b → rsqrt a ≤ rsqrt b) :
    (c.f.split = true → 0 ≤ c.f.width0 → 0 ≤ c.f.width1 → 0 ≤ c.f.width2 →
      (cell_make_multipoles rsqrt c t).f.mult.r_max =
        min
          (specChildRmaxBound rsqrt
            ((cell_make_multipoles rsqrt c t).f.mult.CoM0)
            ((cell_make_multipoles rsqrt c t).f.mult.CoM1)
            ((cell_make_multipoles rsqrt c t).f.mult.CoM2)
            (presentChildren c.prog))
          (specMaxCornerDist rsqrt
            ((cell_make_multipoles rsqrt c t).f.mult.CoM0)
            ((cell_make_multipoles rsqrt c t).f.mult.CoM1)
            ((cell_make_multipoles rsqrt c t).f.mult.CoM2) c.f)) ∧
      (c.f.split = false → c.f.gcount ≤ 0 →
        (cell_make_multipoles rsqrt c t).f.mult =
          ⟨0, c.f.loc0 + c.f.width0 / 2, c.f.loc1 + c.f.width1 / 2,
            c.f.loc2 + c.f.width2 / 2, 0⟩) ∧
      (cell_make_multipoles rsqrt c t).f.ti_old_multipole = t := by
  obtain ⟨f, p⟩ := c
  refine ⟨?_, ?_, ?_⟩
  · intro hsplit h0 h1 h2
    simp only [Cell.f_mk, Cell.prog_mk] at *
    simp only [cell_make_multipoles, Cell.f_mk, Cell.prog_mk, hsplit,
      if_true]
    rw [specMaxCornerDist_eq rsqrt hmono _ _ _ f h0 h1 h2]
    have hfold :
        (presentChildren p).foldl
            (fun r cp =>
              max r (cp.f.mult.r_max +
                rsqrt ((splitCoM0 (presentChildren p) - cp.f.mult.CoM0) *
                    (splitCoM0 (presentChildren p) - cp.f.mult.CoM0) +
                  (splitCoM1 (presentChildren p) - cp.f.mult.CoM1) *
                    (splitCoM1 (presentChildren p) - cp.f.mult.CoM1) +
                  (splitCoM2 (presentChildren p) - cp.f.mult.CoM2) *
                    (splitCoM2 (presentChildren p) - cp.f.mult.CoM2)))) 0 =
          specChildRmaxBound rsqrt (splitCoM0 (presentChildren p))
            (splitCoM1 (presentChildren p)) (splitCoM2 (presentChildren p))
            (presentChildren p) := by
      rw [specChildRmaxBound, ← foldl_max_eq_foldr, List.foldl_map]
    rw [hfold]
  · intro hsplit hgc
    simp only [Cell.f_mk] at *
    have hlt : ¬(0 < f.gcount) := not_lt.mpr hgc
    simp only [cell_make_multipoles, Cell.f_mk, hsplit, Bool.false_eq_true,
      if_false, hlt]
  · by_cases hsplit : f.split
    · simp only [cell_make_multipoles, Cell.f_mk, hsplit, if_true]
    · by_cases hgc : 0 < f.gcount
      · simp only [cell_make_multipoles, Cell.f_mk, hsplit,
          Bool.false_eq_true, if_false, hgc, if_true]
      · simp only [cell_make_multipoles, Cell.f_mk, hsplit,
          Bool.false_eq_true, if_false, hgc]

/-- Witness for C8 applied to an empty leaf cell with the identity for
`rsqrt`. -/
theorem claim_C8_witness :
    (∀ a b : ℚ, 0 ≤ a → a ≤ b → a ≤ b) ∧
      (cell_make_multipoles (fun q => q) (Cell.mk baseFields .pnil) 5).f.mult =
        ⟨0, baseFields.loc0 + baseFields.width0 / 2,
          baseFields.loc1 + baseFields.width1 / 2,
          baseFields.loc2 + baseFields.width2 / 2, 0⟩ ∧
      (cell_make_multipoles (fun q => q)
          (Cell.mk baseFields .pnil) 5).f.ti_old_multipole = 5 :=
  ⟨fun _ _ _ h => h,
    (claim_C8 (fun q => q) (Cell.mk baseFields .pnil) 5
      (fun _ _ _ h => h)).2.1 rfl (by decide),
    (claim_C8 (fun q => q) (Cell.mk baseFields .pnil) 5
      (fun _ _ _ h => h)).2.2⟩

/-! ## Drift Engine: `cell_drift_part` (cell.c lines 2106-2208) and
`cell_drift_gpart` (cell.c lines 2217-2311)

The per-particle integrator (`drift_part`, `drift_gpart`, `drift_spart`
from `drift.h`), the activity predicates (`part_is_active`,
`gpart_is_active` from `active.h`), the density-loop initialisers
(`hydro_init_part`, `gravity_init_gpart`) and the machine `sqrtf` are
external collaborators, passed in as the fields of a `DriftEnv` together
with the engine scalars the code reads. -/

structure DriftEnv where
  ti_current : ℤ
  timeBase : ℚ
  hydro_h_max : ℚ
  rsqrt : ℚ → ℚ
  drift_part : ℚ → ℚ → ℤ → ℤ → Part → XPart → Part × XPart
  part_is_active : Part → Bool
  hydro_init_part : Part → Part
  drift_gpart : ℚ → ℚ → ℤ → ℤ → GPart → GPart
  gpart_is_active : GPart → Bool
  gravity_init_gpart : GPart → GPart
  drift_spart : ℚ → ℚ → ℤ → ℤ → SPart → SPart

/-- Fold a per-child quantity with `max`, starting from the accumulator:
the shape of the collection loops in the split branches of the drift
functions (cell.c lines 2136-2147, 2244-2253). -/
def foldMaxChild (g : Cell → ℚ) : Progs → ℚ → ℚ
  | .pnil, acc => acc
  | .pnone tl, acc => foldMaxChild g tl acc
  | .psome c tl, acc => foldMaxChild g tl (max acc (g c))

/-- One leaf gas particle step of `cell_drift_part` (cell.c lines
2161-2190): integrate, clamp `h`, then (if active) initialise for the
density loop.  Returns the final particle pair together with the clamped
`h` read for the cell's `h_max` fold. -/
def driftOnePart (env : DriftEnv) (dt : ℚ) (ti_old ti_cur : ℤ)
    (pq : Part × XPart) : (Part × XPart) × ℚ :=
  let d := env.drift_part dt env.timeBase ti_old ti_cur pq.1 pq.2
  let p1 := { d.1 with h := min d.1.h env.hydro_h_max }
  ((if env.part_is_active p1 then env.hydro_init_part p1 else p1, d.2), p1.h)

/-- Squared displacement of a drifted gas particle since the last rebuild
(cell.c lines 2174-2177). -/
def xpDx2 (xp : XPart) : ℚ :=
  xp.x_diff0 * xp.x_diff0 + xp.x_diff1 * xp.x_diff1 +
    xp.x_diff2 * xp.x_diff2

/-- Squared displacement since the last sort (cell.c lines 2178-2181). -/
def xpDx2Sort (xp : XPart) : ℚ :=
  xp.x_diff_sort0 * xp.x_diff_sort0 + xp.x_diff_sort1 * xp.x_diff_sort1 +
    xp.x_diff_sort2 * xp.x_diff_sort2

/-- Squared displacement of a drifted gravity particle (cell.c lines
2274-2277). -/
def gpDx2 (gp : GPart) : ℚ :=
  gp.x_diff0 * gp.x_diff0 + gp.x_diff1 * gp.x_diff1 +
    gp.x_diff2 * gp.x_diff2

/-- One leaf gravity particle step of `cell_drift_gpart` (cell.c lines
2265-2283): integrate, then (if active) initialise the force fields. -/
def driftOneGpart (env : DriftEnv) (dt : ℚ) (ti_old ti_cur : ℤ)
    (gp : GPart) : GPart :=
  let g1 := env.drift_gpart dt env.timeBase ti_old ti_cur gp
  if env.gpart_is_active g1 then env.gravity_init_gpart g1 else g1

mutual
def cell_drift_part (env : DriftEnv) (force : Bool) : Cell → Cell
  | .mk f p =>
    let ti_current := env.ti_current
    let dt := ((ti_current - f.ti_old_part : ℤ) : ℚ) * env.timeBase
    let force := force || f.do_drift
    if f.split && (force || f.do_sub_drift) then
      let p2 := cell_drift_part_progs env force p
      .mk { f with
        h_max := foldMaxChild (fun cp => cp.f.h_max) p2 0
        dx_max_part := foldMaxChild (fun cp => cp.f.dx_max_part) p2 0
        dx_max_sort := foldMaxChild (fun cp => cp.f.dx_max_sort) p2 0
        ti_old_part := ti_current
        do_drift := false
        do_sub_drift := false } p2
    else if !f.split && force && decide (f.ti_old_part < ti_current) then
      let stepped := f.parts.map
        (driftOnePart env dt f.ti_old_part ti_current)
      let parts2 := stepped.map Prod.fst
      .mk { f with
        parts := parts2
        h_max := (stepped.map Prod.snd).foldl max 0
        dx_max_part :=
          env.rsqrt ((parts2.map fun pq => xpDx2 pq.2).foldl max 0)
        dx_max_sort :=
          env.rsqrt ((parts2.map fun pq => xpDx2Sort pq.2).foldl max 0)
        ti_old_part := ti_current
        do_drift := false
        do_sub_drift := false } p
    else
      .mk { f with do_drift := false, do_sub_drift := false } p
def cell_drift_part_progs (env : DriftEnv) (force : Bool) : Progs → Progs
  | .pnil => .pnil
  | .pnone tl => .pnone (cell_drift_part_progs env force tl)
  | .psome c tl =>
    .psome (cell_drift_part env force c) (cell_drift_part_progs env force tl)
end

mutual
def cell_drift_gpart (env : DriftEnv) (force : Bool) : Cell → Cell
  | .mk f p =>
    let ti_current := env.ti_current
    let dt := ((ti_current - f.ti_old_gpart : ℤ) : ℚ) * env.timeBase
    let force := force || f.do_grav_drift
    if f.split && (force || f.do_grav_sub_drift) then
      let p2 := cell_drift_gpart_progs env force p
      .mk { f with
        dx_max_gpart := foldMaxChild (fun cp => cp.f.dx_max_gpart) p2 0
        ti_old_gpart := ti_current
        do_grav_drift := false
        do_grav_sub_drift := false } p2
    else if !f.split && force && decide (f.ti_old_gpart < ti_current) then
      let gparts2 := f.gparts.map
        (driftOneGpart env dt f.ti_old_gpart ti_current)
      let sparts2 := f.sparts.map
        (env.drift_spart dt env.timeBase f.ti_old_gpart ti_current)
      .mk { f with
        gparts := gparts2
        sparts := sparts2
        dx_max_gpart := env.rsqrt ((gparts2.map gpDx2).foldl max 0)
        ti_old_gpart := ti_current
        do_grav_drift := false
        do_grav_sub_drift := false } p
    else
      .mk { f with do_grav_drift := false, do_grav_sub_drift := false } p
def cell_drift_gpart_progs (env : DriftEnv) (force : Bool) : Progs → Progs
  | .pnil => .pnil
  | .pnone tl => .pnone (cell_drift_gpart_progs env force tl)
  | .psome c tl =>
    .psome (cell_drift_gpart env force c)
      (cell_drift_gpart_progs env force tl)
end

mutual
theorem cell_drift_part_idem : ∀ (env : DriftEnv) (force : Bool) (c : Cell),
    cell_drift_part env force (cell_drift_part env force c) =
      cell_drift_part env force c
  | env, force, .mk f p => by
    cases force with
    | true =>
      by_cases hs : f.split = true
      · simp [cell_drift_part, hs, cell_drift_part_progs_idem env true p]
      · simp only [Bool.not_eq_true] at hs
        by_cases hlt : f.ti_old_part < env.ti_current
        · simp [cell_drift_part, hs, hlt, lt_self_iff_false]
        · simp [cell_drift_part, hs, hlt]
    | false =>
      by_cases hs : f.split = true
      · by_cases ht : (f.do_drift || f.do_sub_drift) = true
        · by_cases hd : f.do_drift = true
          · simp [cell_drift_part, hs, hd,
              cell_drift_part_progs_idem env true p]
          · simp only [Bool.not_eq_true] at hd
            have hsub : f.do_sub_drift = true := by
              simpa [hd] using ht
            simp [cell_drift_part, hs, hd, hsub]
        · simp only [Bool.or_eq_true, not_or, Bool.not_eq_true] at ht
          simp [cell_drift_part, hs, ht.1, ht.2]
      · simp only [Bool.not_eq_true] at hs
        by_cases hd : f.do_drift = true
        · by_cases hlt : f.ti_old_part < env.ti_current
          · simp [cell_drift_part, hs, hd, hlt, lt_self_iff_false]
          · simp [cell_drift_part, hs, hd, hlt]
        · simp only [Bool.not_eq_true] at hd
          simp [cell_drift_part, hs, hd]
theorem cell_drift_part_progs_idem :
    ∀ (env : DriftEnv) (force : Bool) (ps : Progs),
      cell_drift_part_progs env force (cell_drift_part_progs env force ps) =
        cell_drift_part_progs env force ps
  | env, force, .pnil => by simp [cell_drift_part_progs]
  | env, force, .pnone tl => by
    simp [cell_drift_part_progs, cell_drift_part_progs_idem env force tl]
  | env, force, .psome c tl => by
    simp [cell_drift_part_progs, cell_drift_part_idem env force c,
      cell_drift_part_progs_idem env force tl]
end

mutual
theorem cell_drift_gpart_idem : ∀ (env : DriftEnv) (force : Bool) (c : Cell),
    cell_drift_gpart env force (cell_drift_gpart env force c) =
      cell_drift_gpart env force c
  | env, force, .mk f p => by
    cases force with
    | true =>
      by_cases hs : f.split = true
      · simp [cell_drift_gpart, hs, cell_drift_gpart_progs_idem env true p]
      · simp only [Bool.not_eq_true] at hs
        by_cases hlt : f.ti_old_gpart < env.ti_current
        · simp [cell_drift_gpart, hs, hlt, lt_self_iff_false]
        · simp [cell_drift_gpart, hs, hlt]
    | false =>
      by_cases hs : f.split = true
      · by_cases ht : (f.do_grav_drift || f.do_grav_sub_drift) = true
        · by_cases hd : f.do_grav_drift = true
          · simp [cell_drift_gpart, hs, hd,
              cell_drift_gpart_progs_idem env true p]
          · simp only [Bool.not_eq_true] at hd
            have hsub : f.do_grav_sub_drift = true := by
              simpa [hd] using ht
            simp [cell_drift_gpart, hs, hd, hsub]
        · simp only [Bool.or_eq_true, not_or, Bool.not_eq_true] at ht
          simp [cell_drift_gpart, hs, ht.1, ht.2]
      · simp only [Bool.not_eq_true] at hs
        by_cases hd : f.do_grav_drift = true
        · by_cases hlt : f.ti_old_gpart < env.ti_current
          · simp [cell_drift_gpart, hs, hd, hlt, lt_self_iff_false]
          · simp [cell_drift_gpart, hs, hd, hlt]
        · simp only [Bool.not_eq_true] at hd
          simp [cell_drift_gpart, hs, hd]
theorem cell_drift_gpart_progs_idem :
    ∀ (env : DriftEnv) (force : Bool) (ps : Progs),
      cell_drift_gpart_progs env force
          (cell_drift_gpart_progs env force ps) =
        cell_drift_gpart_progs env force ps
  | env, force, .pnil => by simp [cell_drift_gpart_progs]
  | env, force, .pnone tl => by
    simp [cell_drift_gpart_progs, cell_drift_gpart_progs_idem env force tl]
  | env, force, .psome c tl => by
    simp [cell_drift_gpart_progs, cell_drift_gpart_idem env force c,
      cell_drift_gpart_progs_idem env force tl]
end

theorem cell_make_multipoles_idem (rsqrt : ℚ → ℚ) (t : ℤ) (c : Cell) :
    cell_make_multipoles rsqrt (cell_make_multipoles rsqrt c t) t =
      cell_make_multipoles rsqrt c t := by
  obtain ⟨f, p⟩ := c
  by_cases hs : f.split = true
  · simp [cell_make_multipoles, Cell.f_mk, Cell.prog_mk, hs]
  · simp only [Bool.not_eq_true] at hs
    by_cases hg : 0 < f.gcount
    · simp [cell_make_multipoles, Cell.f_mk, Cell.prog_mk, hs, hg]
    · simp [cell_make_multipoles, Cell.f_mk, Cell.prog_mk, hs, hg]

/-- C5: the drift and multipole-build operations are idempotent — a
second `cell_drift_part` with unchanged `e->ti_current` (and the same
`force` argument) leaves every particle field and every cell field
(`h_max`, `dx_max_part`, `dx_max_sort`, `ti_old_part`, drift flags)
unchanged, and a second `cell_make_multipoles` with the same
`ti_current` and unchanged particles produces the same multipole, CoM,
`r_max` and `ti_old_multipole`. -/
theorem claim_C5 (env : DriftEnv) (force : Bool) (rsqrt : ℚ → ℚ) (t : ℤ)
    (c : Cell) :
    cell_drift_part env force (cell_drift_part env force c) =
        cell_drift_part env force c ∧
      cell_make_multipoles rsqrt (cell_make_multipoles rsqrt c t) t =
        cell_make_multipoles rsqrt c t :=
  ⟨cell_drift_part_idem env force c, cell_make_multipoles_idem rsqrt t c⟩

/-! ## C9: the parent-child envelope invariant is preserved by drifting -/

/-- Does any progeny slot hold a child? -/
def hasKid : Progs → Bool
  | .pnil => false
  | .pnone tl => hasKid tl
  | .psome _ _ => true

mutual
def wfSplit : Cell → Bool
  | .mk f p => (f.split || !hasKid p) && wfSplitProgs p
def wfSplitProgs : Progs → Bool
  | .pnil => true
  | .pnone tl => wfSplitProgs tl
  | .psome c tl => wfSplit c && wfSplitProgs tl
end

mutual
def envInvPart : Cell → Bool
  | .mk f p => envInvPartProgs f.h_max f.dx_max_part p
def envInvPartProgs (hm dm : ℚ) : Progs → Bool
  | .pnil => true
  | .pnone tl => envInvPartProgs hm dm tl
  | .psome c tl =>
    decide (c.f.h_max ≤ hm) && decide (c.f.dx_max_part ≤ dm) &&
      envInvPart c && envInvPartProgs hm dm tl
end

mutual
def envInvGpart : Cell → Bool
  | .mk f p => envInvGpartProgs f.dx_max_gpart p
def envInvGpartProgs (dm : ℚ) : Progs → Bool
  | .pnil => true
  | .pnone tl => envInvGpartProgs dm tl
  | .psome c tl =>
    decide (c.f.dx_max_gpart ≤ dm) && envInvGpart c &&
      envInvGpartProgs dm tl
end

/-- The per-child invariant alone, bounds at the parent stripped. -/
def allInvPart : Progs → Bool
  | .pnil => true
  | .pnone tl => allInvPart tl
  | .psome c tl => envInvPart c && allInvPart tl

def allInvGpart : Progs → Bool
  | .pnil => true
  | .pnone tl => allInvGpart tl
  | .psome c tl => envInvGpart c && allInvGpart tl

theorem le_foldMaxChild (g : Cell → ℚ) :
    ∀ (ps : Progs) (acc : ℚ), acc ≤ foldMaxChild g ps acc
  | .pnil, acc => le_refl acc
  | .pnone tl, acc => le_foldMaxChild g tl acc
  | .psome c tl, acc =>
    le_trans (le_max_left acc (g c)) (le_foldMaxChild g tl (max acc (g c)))

theorem foldMaxChild_mono (g : Cell → ℚ) :
    ∀ (ps : Progs) {a b : ℚ}, a ≤ b →
      foldMaxChild g ps a ≤ foldMaxChild g ps b
  | .pnil, _, _, h => h
  | .pnone tl, _, _, h => foldMaxChild_mono g tl h
  | .psome c tl, a, b, h =>
    foldMaxChild_mono g tl (max_le_max h (le_refl (g c)))

theorem envInvPartProgs_no_kids (hm dm : ℚ) :
    ∀ ps : Progs, hasKid ps = false → envInvPartProgs hm dm ps = true
  | .pnil, _ => rfl
  | .pnone tl, h => envInvPartProgs_no_kids hm dm tl h
  | .psome c tl, h => by simp [hasKid] at h

theorem envInvGpartProgs_no_kids (dm : ℚ) :
    ∀ ps : Progs, hasKid ps = false → envInvGpartProgs dm ps = true
  | .pnil, _ => rfl
  | .pnone tl, h => envInvGpartProgs_no_kids dm tl h
  | .psome c tl, h => by simp [hasKid] at h

theorem allInvPart_of_envInv {hm dm : ℚ} :
    ∀ ps : Progs, envInvPartProgs hm dm ps = true → allInvPart ps = true
  | .pnil, _ => rfl
  | .pnone tl, h => allInvPart_of_envInv tl h
  | .psome c tl, h => by
    simp only [envInvPartProgs, Bool.and_eq_true] at h
    simp [allInvPart, h.1.2, allInvPart_of_envInv tl h.2]

theorem allInvGpart_of_envInv {dm : ℚ} :
    ∀ ps : Progs, envInvGpartProgs dm ps = true → allInvGpart ps = true
  | .pnil, _ => rfl
  | .pnone tl, h => allInvGpart_of_envInv tl h
  | .psome c tl, h => by
    simp only [envInvGpartProgs, Bool.and_eq_true] at h
    simp [allInvGpart, h.1.2, allInvGpart_of_envInv tl h.2]

theorem envInvPartProgs_of_bounds :
    ∀ (ps : Progs) (hm dm : ℚ),
      foldMaxChild (fun cp => cp.f.h_max) ps 0 ≤ hm →
      foldMaxChild (fun cp => cp.f.dx_max_part) ps 0 ≤ dm →
      allInvPart ps = true → envInvPartProgs hm dm ps = true
  | .pnil, hm, dm, _, _, _ => rfl
  | .pnone tl, hm, dm, hh, hd, ha =>
    envInvPartProgs_of_bounds tl hm dm hh hd ha
  | .psome c tl, hm, dm, hh, hd, ha => by
    simp only [allInvPart, Bool.and_eq_true] at ha
    simp only [foldMaxChild] at hh hd
    have hch : c.f.h_max ≤ hm :=
      le_trans (le_max_right 0 _)
        (le_trans (le_foldMaxChild _ tl _) hh)
    have hcd : c.f.dx_max_part ≤ dm :=
      le_trans (le_max_right 0 _)
        (le_trans (le_foldMaxChild _ tl _) hd)
    have htlh : foldMaxChild (fun cp => cp.f.h_max) tl 0 ≤ hm :=
      le_trans (foldMaxChild_mono _ tl (le_max_left 0 _)) hh
    have htld : foldMaxChild (fun cp => cp.f.dx_max_part) tl 0 ≤ dm :=
      le_trans (foldMaxChild_mono _ tl (le_max_left 0 _)) hd
    simp [envInvPartProgs, hch, hcd, ha.1,
      envInvPartProgs_of_bounds tl hm dm htlh htld ha.2]

theorem envInvGpartProgs_of_bounds :
    ∀ (ps : Progs) (dm : ℚ),
      foldMaxChild (fun cp => cp.f.dx_max_gpart) ps 0 ≤ dm →
      allInvGpart ps = true → envInvGpartProgs dm ps = true
  | .pnil, dm, _, _ => rfl
  | .pnone tl, dm, hd, ha => envInvGpartProgs_of_bounds tl dm hd ha
  | .psome c tl, dm, hd, ha => by
    simp only [allInvGpart, Bool.and_eq_true] at ha
    simp only [foldMaxChild] at hd
    have hcd : c.f.dx_max_gpart ≤ dm :=
      le_trans (le_max_right 0 _)
        (le_trans (le_foldMaxChild _ tl _) hd)
    have htld : foldMaxChild (fun cp => cp.f.dx_max_gpart) tl 0 ≤ dm :=
      le_trans (foldMaxChild_mono _ tl (le_max_left 0 _)) hd
    simp [envInvGpartProgs, hcd, ha.1,
      envInvGpartProgs_of_bounds tl dm htld ha.2]

mutual
theorem cell_drift_part_inv :
    ∀ (env : DriftEnv) (force : Bool) (c : Cell),
      wfSplit c = true → envInvPart c = true →
        envInvPart (cell_drift_part env force c) = true
  | env, force, .mk f p => fun hwf hinv => by
    simp only [wfSplit, Bool.and_eq_true] at hwf
    by_cases hA : (f.split && ((force || f.do_drift) || f.do_sub_drift)) =
        true
    · have hp2 := cell_drift_part_progs_inv env (force || f.do_drift) p
        hwf.2 (allInvPart_of_envInv p (by simpa [envInvPart] using hinv))
      simp only [cell_drift_part, hA, if_true, envInvPart]
      exact envInvPartProgs_of_bounds _ _ _ (le_refl _) (le_refl _) hp2
    · by_cases hB : (!f.split && (force || f.do_drift) &&
          decide (f.ti_old_part < env.ti_current)) = true
      · have hs : f.split = false := by
          simp only [Bool.and_eq_true, Bool.not_eq_true'] at hB
          exact hB.1.1
        have hk : hasKid p = false := by
          simpa [hs, Bool.not_eq_true'] using hwf.1
        simp only [cell_drift_part, hA, hB, if_true, if_false, envInvPart]
        exact envInvPartProgs_no_kids _ _ p hk
      · simp only [cell_drift_part, hA, hB, if_false, envInvPart]
        simpa [envInvPart] using hinv
theorem cell_drift_part_progs_inv :
    ∀ (env : DriftEnv) (force : Bool) (ps : Progs),
      wfSplitProgs ps = true → allInvPart ps = true →
        allInvPart (cell_drift_part_progs env force ps) = true
  | _, _, .pnil, _, _ => rfl
  | env, force, .pnone tl, hwf, ha => by
    simp only [wfSplitProgs] at hwf
    simp only [allInvPart] at ha
    simp [cell_drift_part_progs, allInvPart,
      cell_drift_part_progs_inv env force tl hwf ha]
  | env, force, .psome c tl, hwf, ha => by
    simp only [wfSplitProgs, Bool.and_eq_true] at hwf
    simp only [allInvPart, Bool.and_eq_true] at ha
    simp [cell_drift_part_progs, allInvPart,
      cell_drift_part_inv env force c hwf.1 ha.1,
      cell_drift_part_progs_inv env force tl hwf.2 ha.2]
end

mutual
theorem cell_drift_gpart_inv :
    ∀ (env : DriftEnv) (force : Bool) (c : Cell),
      wfSplit c = true → envInvGpart c = true →
        envInvGpart (cell_drift_gpart env force c) = true
  | env, force, .mk f p => fun hwf hinv => by
    simp only [wfSplit, Bool.and_eq_true] at hwf
    by_cases hA : (f.split && ((force || f.do_grav_drift) ||
        f.do_grav_sub_drift)) = true
    · have hp2 := cell_drift_gpart_progs_inv env (force || f.do_grav_drift)
        p hwf.2
        (allInvGpart_of_envInv p (by simpa [envInvGpart] using hinv))
      simp only [cell_drift_gpart, hA, if_true, envInvGpart]
      exact envInvGpartProgs_of_bounds _ _ (le_refl _) hp2
    · by_cases hB : (!f.split && (force || f.do_grav_drift) &&
          decide (f.ti_old_gpart < env.ti_current)) = true
      · have hs : f.split = false := by
          simp only [Bool.and_eq_true, Bool.not_eq_true'] at hB
          exact hB.1.1
        have hk : hasKid p = false := by
          simpa [hs, Bool.not_eq_true'] using hwf.1
        simp only [cell_drift_gpart, hA, hB, if_true, if_false, envInvGpart]
        exact envInvGpartProgs_no_kids _ p hk
      · simp only [cell_drift_gpart, hA, hB, if_false, envInvGpart]
        simpa [envInvGpart] using hinv
theorem cell_drift_gpart_progs_inv :
    ∀ (env : DriftEnv) (force : Bool) (ps : Progs),
      wfSplitProgs ps = true → allInvGpart ps = true →
        allInvGpart (cell_drift_gpart_progs env force ps) = true
  | _, _, .pnil, _, _ => rfl
  | env, force, .pnone tl, hwf, ha => by
    simp only [wfSplitProgs] at hwf
    simp only [allInvGpart] at ha
    simp [cell_drift_gpart_progs, allInvGpart,
      cell_drift_gpart_progs_inv env force tl hwf ha]
  | env, force, .psome c tl, hwf, ha => by
    simp only [wfSplitProgs, Bool.and_eq_true] at hwf
    simp only [allInvGpart, Bool.and_eq_true] at ha
    simp [cell_drift_gpart_progs, allInvGpart,
      cell_drift_gpart_inv env force c hwf.1 ha.1,
      cell_drift_gpart_progs_inv env force tl hwf.2 ha.2]
end

/-- C9: on a well-formed tree (a non-split cell has no progeny), both
drift operations preserve the parent-child envelope invariant — after
`cell_drift_part`, every present child still satisfies
`child.h_max ≤ cell.h_max` and `child.dx_max_part ≤ cell.dx_max_part`,
and after `cell_drift_gpart`, `child.dx_max_gpart ≤ cell.dx_max_gpart`,
because every recursed split cell refolds the maxima of its children. -/
theorem claim_C9 (env : DriftEnv) (force : Bool) (c : Cell)
    (hwf : wfSplit c = true) :
    (envInvPart c = true →
        envInvPart (cell_drift_part env force c) = true) ∧
      (envInvGpart c = true →
        envInvGpart (cell_drift_gpart env force c) = true) :=
  ⟨cell_drift_part_inv env force c hwf, cell_drift_gpart_inv env force c hwf⟩

/-- A trivial collaborator environment used to instantiate witnesses. -/
def trivialDriftEnv : DriftEnv :=
  { ti_current := 1
    timeBase := 1
    hydro_h_max := 1
    rsqrt := fun q => q
    drift_part := fun _ _ _ _ p xp => (p, xp)
    part_is_active := fun _ => false
    hydro_init_part := fun p => p
    drift_gpart := fun _ _ _ _ g => g
    gpart_is_active := fun _ => false
    gravity_init_gpart := fun g => g
    drift_spart := fun _ _ _ _ sp => sp }

/-- Witness for C9 on a concrete single-node tree. -/
theorem claim_C9_witness :
    wfSplit (Cell.mk baseFields .pnil) = true ∧
      ((envInvPart (Cell.mk baseFields .pnil) = true →
          envInvPart (cell_drift_part trivialDriftEnv false
            (Cell.mk baseFields .pnil)) = true) ∧
        (envInvGpart (Cell.mk baseFields .pnil) = true →
          envInvGpart (cell_drift_gpart trivialDriftEnv false
            (Cell.mk baseFields .pnil)) = true)) :=
  ⟨by simp [wfSplit, wfSplitProgs, hasKid, baseFields],
    claim_C9 trivialDriftEnv false (Cell.mk baseFields .pnil)
      (by simp [wfSplit, wfSplitProgs, hasKid, baseFields])⟩

/-! ## C3: `cell_activate_subcell_grav_tasks`, pair branch (cell.c lines
1538-1669)

We embed the body of one call on a pair `(ci, cj)`: the atomic multipole
drifts, the minimum-image MAC test, and the action it decides — which
cells get a gpart-drift activation and which child pairs the call
recurses into.  The external pieces declared outside the provided
sources (`cell_is_active_gravity` from active.h, `nearest` from space.h,
`gravity_M2L_accept` from gravity.h) are modelled from the spec. -/

/-- Modelled from the spec: `cell_is_active_gravity` (active.h, not among
the provided sources) — the cell holds gravity particles waking this
step, i.e. its next gravity end-time equals the current time. -/
def cell_is_active_gravity (c : Cell) (ti_current : ℤ) : Bool :=
  decide (c.f.ti_gravity_end_min = ti_current)

/-- Modelled from the spec: `nearest` (space.h, not among the provided
sources) — the minimum-image convention on a periodic box of extent
`dim`. -/
def nearest (dx dim : ℚ) : ℚ :=
  if dx > dim / 2 then dx - dim
  else if dx < -(dim / 2) then dx + dim
  else dx

/-- Modelled from the spec: `gravity_M2L_accept` (gravity.h, not among
the provided sources) — the Multipole Acceptance Criterion
`(r_max_i + r_max_j)² ≤ θ_crit² · r²`. -/
def gravity_M2L_accept (r_max_i r_max_j theta_crit2 r2 : ℚ) : Bool :=
  decide ((r_max_i + r_max_j) * (r_max_i + r_max_j) ≤ theta_crit2 * r2)

/-- The engine scalars and the external multipole-drift operator
(`gravity_drift`, from multipole.h) consumed by the traversal. -/
structure GravEnv where
  ti_current : ℤ
  timeBase : ℚ
  periodic : Bool
  dim0 : ℚ
  dim1 : ℚ
  dim2 : ℚ
  theta_crit2 : ℚ
  engine_rank : ℤ
  gravity_drift : Multipole → ℚ → ℚ → Multipole

/-- Embedding of `cell_drift_multipole` (cell.c lines 2356-2373): drift
the expansion at this level only and stamp `ti_old_multipole`. -/
def cell_drift_multipole (env : GravEnv) (c : Cell) : Cell :=
  let dt := ((env.ti_current - c.f.ti_old_multipole : ℤ) : ℚ) * env.timeBase
  let m :=
    if c.f.ti_old_multipole < env.ti_current then
      env.gravity_drift c.f.mult dt c.f.dx_max_gpart
    else c.f.mult
  .mk { c.f with mult := m, ti_old_multipole := env.ti_current } c.prog

/-- The atomic multipole drifts at the head of the pair branch (cell.c
lines 1580-1588). -/
def driftPairMultipoles (env : GravEnv) (ci cj : Cell) : Cell × Cell :=
  (if ci.f.ti_old_multipole < env.ti_current
    then cell_drift_multipole env ci else ci,
   if cj.f.ti_old_multipole < env.ti_current
    then cell_drift_multipole env cj else cj)

/-- The squared minimum-image distance between the two CoMs (cell.c
lines 1596-1607). -/
def pairR2 (env : GravEnv) (ci cj : Cell) : ℚ :=
  let dx0 := ci.f.mult.CoM0 - cj.f.mult.CoM0
  let dy0 := ci.f.mult.CoM1 - cj.f.mult.CoM1
  let dz0 := ci.f.mult.CoM2 - cj.f.mult.CoM2
  let dx := if env.periodic then nearest dx0 env.dim0 else dx0
  let dy := if env.periodic then nearest dy0 env.dim1 else dy0
  let dz := if env.periodic then nearest dz0 env.dim2 else dz0
  dx * dx + dy * dy + dz * dz

/-- What one pair call of `cell_activate_subcell_grav_tasks` does: the
two cells after the atomic multipole drifts, the cells on which
`cell_activate_drift_gpart` is invoked, and the child pairs recursed
into. -/
structure GravPairOutcome where
  ci : Cell
  cj : Cell
  drifts : List Cell
  recursions : List (Cell × Cell)

/-- Embedding of the pair branch of `cell_activate_subcell_grav_tasks`
(cell.c lines 1573-1669). -/
def cell_activate_subcell_grav_pair (env : GravEnv) (ci cj : Cell) :
    GravPairOutcome :=
  if !(cell_is_active_gravity ci env.ti_current ||
      cell_is_active_gravity cj env.ti_current) then
    ⟨ci, cj, [], []⟩
  else
    let d := driftPairMultipoles env ci cj
    let ci := d.1
    let cj := d.2
    let ri_max := ci.f.mult.r_max
    let rj_max := cj.f.mult.r_max
    let r2 := pairR2 env ci cj
    if gravity_M2L_accept ri_max rj_max env.theta_crit2 r2 then
      ⟨ci, cj, [], []⟩
    else if !ci.f.split && !cj.f.split then
      if cell_is_active_gravity ci env.ti_current ||
          cell_is_active_gravity cj env.ti_current then
        ⟨ci, cj,
          (if ci.f.nodeID = env.engine_rank then [ci] else []) ++
            (if cj.f.nodeID = env.engine_rank then [cj] else []), []⟩
      else ⟨ci, cj, [], []⟩
    else if ri_max > rj_max then
      if ci.f.split then
        ⟨ci, cj, [], (presentChildren ci.prog).map fun ck => (ck, cj)⟩
      else if cj.f.split then
        ⟨ci, cj, [], (presentChildren cj.prog).map fun ck => (ci, ck)⟩
      else ⟨ci, cj, [], []⟩
    else if rj_max ≥ ri_max then
      if cj.f.split then
        ⟨ci, cj, [], (presentChildren cj.prog).map fun ck => (ci, ck)⟩
      else if ci.f.split then
        ⟨ci, cj, [], (presentChildren ci.prog).map fun ck => (ck, cj)⟩
      else ⟨ci, cj, [], []⟩
    else ⟨ci, cj, [], []⟩

theorem active_cell_drift_multipole (env : GravEnv) (c : Cell) :
    cell_is_active_gravity (cell_drift_multipole env c) env.ti_current =
      cell_is_active_gravity c env.ti_current := by
  simp [cell_drift_multipole, cell_is_active_gravity, Cell.f_mk]

theorem active_driftPair_left (env : GravEnv) (ci cj : Cell) :
    cell_is_active_gravity (driftPairMultipoles env ci cj).1
        env.ti_current = cell_is_active_gravity ci env.ti_current := by
  unfold driftPairMultipoles
  by_cases h : ci.f.ti_old_multipole < env.ti_current <;>
    simp [h, active_cell_drift_multipole]

theorem active_driftPair_right (env : GravEnv) (ci cj : Cell) :
    cell_is_active_gravity (driftPairMultipoles env ci cj).2
        env.ti_current = cell_is_active_gravity cj env.ti_current := by
  unfold driftPairMultipoles
  by_cases h : cj.f.ti_old_multipole < env.ti_current <;>
    simp [h, active_cell_drift_multipole]

/-- The first cell of the pair after the atomic multipole drifts. -/
def gravCi (env : GravEnv) (ci cj : Cell) : Cell :=
  (driftPairMultipoles env ci cj).1

/-- The second cell of the pair after the atomic multipole drifts. -/
def gravCj (env : GravEnv) (ci cj : Cell) : Cell :=
  (driftPairMultipoles env ci cj).2

/-- The MAC decision taken by the pair branch, on the drifted values. -/
def gravAccept (env : GravEnv) (ci cj : Cell) : Bool :=
  gravity_M2L_accept (gravCi env ci cj).f.mult.r_max
    (gravCj env ci cj).f.mult.r_max env.theta_crit2
    (pairR2 env (gravCi env ci cj) (gravCj env ci cj))

/-- C3 (amended).  For a pair reached with at least one gravity-active
cell, after both multipoles are drifted: if the MAC accepts, the call
activates no drift and does not recurse; if it rejects at a leaf-leaf
pair, a gpart drift is activated on each locally owned cell; otherwise
it recurses into the children of the strictly larger cell only when that
cell is split (ties to `cj` when `cj` is split) — when the preferred cell
is a leaf, it recurses into the children of the other, split, cell. -/
theorem claim_C3 (env : GravEnv) (ci cj : Cell)
    (hact : (cell_is_active_gravity ci env.ti_current ||
        cell_is_active_gravity cj env.ti_current) = true) :
    (gravAccept env ci cj = true →
      (cell_activate_subcell_grav_pair env ci cj).drifts = [] ∧
        (cell_activate_subcell_grav_pair env ci cj).recursions = []) ∧
      (gravAccept env ci cj = false →
        (gravCi env ci cj).f.split = false →
        (gravCj env ci cj).f.split = false →
        (cell_activate_subcell_grav_pair env ci cj).drifts =
            (if (gravCi env ci cj).f.nodeID = env.engine_rank
              then [gravCi env ci cj] else []) ++
              (if (gravCj env ci cj).f.nodeID = env.engine_rank
                then [gravCj env ci cj] else []) ∧
          (cell_activate_subcell_grav_pair env ci cj).recursions = []) ∧
      (gravAccept env ci cj = false →
        ((gravCi env ci cj).f.split = true ∨
          (gravCj env ci cj).f.split = true) →
        (cell_activate_subcell_grav_pair env ci cj).drifts = [] ∧
          (cell_activate_subcell_grav_pair env ci cj).recursions =
            (if (gravCi env ci cj).f.mult.r_max >
                (gravCj env ci cj).f.mult.r_max then
              (if (gravCi env ci cj).f.split = true then
                (presentChildren (gravCi env ci cj).prog).map
                  (fun ck => (ck, gravCj env ci cj))
              else
                (presentChildren (gravCj env ci cj).prog).map
                  (fun ck => (gravCi env ci cj, ck)))
            else
              (if (gravCj env ci cj).f.split = true then
                (presentChildren (gravCj env ci cj).prog).map
                  (fun ck => (gravCi env ci cj, ck))
              else
                (presentChildren (gravCi env ci cj).prog).map
                  (fun ck => (ck, gravCj env ci cj))))) := by
  refine ⟨?_, ?_, ?_⟩
  · intro hacc
    simp only [gravAccept, gravCi, gravCj] at hacc
    simp [cell_activate_subcell_grav_pair, hact, hacc]
  · intro hacc hsi hsj
    simp only [gravAccept, gravCi, gravCj] at hacc hsi hsj
    simp only [gravCi, gravCj]
    simp [cell_activate_subcell_grav_pair, hact, hacc, hsi, hsj,
      active_driftPair_left, active_driftPair_right]
  · intro hacc hsplit
    simp only [gravAccept, gravCi, gravCj] at hacc hsplit
    simp only [gravCi, gravCj]
    by_cases hr : (driftPairMultipoles env ci cj).1.f.mult.r_max >
        (driftPairMultipoles env ci cj).2.f.mult.r_max
    · by_cases hsi : (driftPairMultipoles env ci cj).1.f.split = true
      · simp [cell_activate_subcell_grav_pair, hact, hacc, hr, hsi]
      · have hsj : (driftPairMultipoles env ci cj).2.f.split = true :=
          hsplit.resolve_left hsi
        simp [cell_activate_subcell_grav_pair, hact, hacc, hr, hsi, hsj]
    · have hge : (driftPairMultipoles env ci cj).2.f.mult.r_max ≥
          (driftPairMultipoles env ci cj).1.f.mult.r_max := not_lt.mp hr
      by_cases hsj : (driftPairMultipoles env ci cj).2.f.split = true
      · simp [cell_activate_subcell_grav_pair, hact, hacc, hr, hge, hsj]
      · have hsi : (driftPairMultipoles env ci cj).1.f.split = true :=
          hsplit.resolve_right hsj
        simp [cell_activate_subcell_grav_pair, hact, hacc, hr, hge, hsi,
          hsj]

/-- A concrete engine for the C3 instances: non-periodic box,
`θ_crit² = 1`, everything already drifted to time 0. -/
def cexGravEnv : GravEnv :=
  { ti_current := 0
    timeBase := 1
    periodic := false
    dim0 := 1
    dim1 := 1
    dim2 := 1
    theta_crit2 := 1
    engine_rank := 0
    gravity_drift := fun m _ _ => m }

/-- A gravity-active leaf child. -/
def cexChild : Cell := .mk { baseFields with ti_gravity_end_min := 0 } .pnil

/-- A gravity-active leaf with the strictly larger `r_max` (5). -/
def cexLeafBig : Cell :=
  .mk { baseFields with ti_gravity_end_min := 0, mult := ⟨1, 0, 0, 0, 5⟩ }
    .pnil

/-- A gravity-active split cell with the smaller `r_max` (1), CoM at
distance 1 from `cexLeafBig`'s. -/
def cexSplitSmall : Cell :=
  .mk
    { baseFields with
      split := true
      ti_gravity_end_min := 0
      mult := ⟨1, 1, 0, 0, 1⟩ }
    (.psome cexChild .pnil)

/-- C3 (counterexample).  The MAC rejects the pair and `ci` has the
strictly larger `r_max` but is a leaf: the claim predicts recursion into
`ci`'s (nonexistent) children, while the call recurses once — into the
children of the smaller, split cell `cj` (cell.c lines 1627-1645). -/
theorem claim_C3_counterexample :
    gravAccept cexGravEnv cexLeafBig cexSplitSmall = false ∧
      (gravCi cexGravEnv cexLeafBig cexSplitSmall).f.mult.r_max >
        (gravCj cexGravEnv cexLeafBig cexSplitSmall).f.mult.r_max ∧
      presentChildren
          (gravCi cexGravEnv cexLeafBig cexSplitSmall).prog = [] ∧
      (cell_activate_subcell_grav_pair cexGravEnv cexLeafBig
          cexSplitSmall).recursions.length = 1 := by
  refine ⟨?_, ?_, ?_, ?_⟩
  · norm_num [gravAccept, gravCi, gravCj, gravity_M2L_accept,
      driftPairMultipoles, pairR2, cexGravEnv, cexLeafBig, cexSplitSmall,
      baseFields, Cell.f_mk]
  · norm_num [gravCi, gravCj, driftPairMultipoles, cexGravEnv,
      cexLeafBig, cexSplitSmall, baseFields, Cell.f_mk]
  · norm_num [gravCi, driftPairMultipoles, cexGravEnv, cexLeafBig,
      baseFields, Cell.f_mk, Cell.prog_mk, presentChildren, Progs.toList]
  · norm_num [cell_activate_subcell_grav_pair, cell_is_active_gravity,
      driftPairMultipoles, pairR2, gravity_M2L_accept, cexGravEnv,
      cexLeafBig, cexSplitSmall, cexChild, baseFields, Cell.f_mk,
      Cell.prog_mk, presentChildren, Progs.toList, List.filterMap]

/-- Witness for C3 at the concrete rejected pair: the third clause of
the theorem yields that no gpart drift is activated at this non-leaf
rejection. -/
theorem claim_C3_witness :
    (cell_is_active_gravity cexLeafBig cexGravEnv.ti_current ||
        cell_is_active_gravity cexSplitSmall cexGravEnv.ti_current) =
        true ∧
      (cell_activate_subcell_grav_pair cexGravEnv cexLeafBig
          cexSplitSmall).drifts = [] := by
  have hact : (cell_is_active_gravity cexLeafBig cexGravEnv.ti_current ||
      cell_is_active_gravity cexSplitSmall cexGravEnv.ti_current) =
      true := by
    norm_num [cell_is_active_gravity, cexLeafBig, cexSplitSmall,
      cexGravEnv, baseFields, Cell.f_mk]
  have hacc : gravAccept cexGravEnv cexLeafBig cexSplitSmall = false := by
    norm_num [gravAccept, gravCi, gravCj, gravity_M2L_accept,
      driftPairMultipoles, pairR2, cexGravEnv, cexLeafBig, cexSplitSmall,
      baseFields, Cell.f_mk]
  have hsplit :
      (gravCi cexGravEnv cexLeafBig cexSplitSmall).f.split = true ∨
        (gravCj cexGravEnv cexLeafBig cexSplitSmall).f.split = true := by
    right
    norm_num [gravCj, driftPairMultipoles, cexGravEnv, cexSplitSmall,
      baseFields, Cell.f_mk]
  exact ⟨hact,
    ((claim_C3 cexGravEnv cexLeafBig cexSplitSmall hact).2.2 hacc
      hsplit).1⟩

/-! ## C6: `cell_pack` (cell.c lines 171-209) and `cell_unpack` (cell.c
lines 220-283)

The packed image (`struct pcell`) carries the transported scalars and
eight progeny indices into the flat depth-first sequence (`-1` for an
absent slot).  The per-cell MPI `tag` drawn from the global counter is
not transported state of the tree and is left out.  `cell_unpack` is
embedded with an explicit fuel argument (the C code relies on the
indices produced by `cell_pack` pointing strictly forward). -/

structure PCell where
  h_max : ℚ
  ti_hydro_end_min : ℤ
  ti_hydro_end_max : ℤ
  ti_gravity_end_min : ℤ
  ti_gravity_end_max : ℤ
  ti_old_part : ℤ
  ti_old_gpart : ℤ
  ti_old_multipole : ℤ
  count : ℤ
  gcount : ℤ
  scount : ℤ
  progeny : List ℤ

/-- The scalars of one cell packed into its `pcell` slot (cell.c lines
176-187). -/
def packHead (f : CellFields) (idxs : List ℤ) : PCell :=
  { h_max := f.h_max
    ti_hydro_end_min := f.ti_hydro_end_min
    ti_hydro_end_max := f.ti_hydro_end_max
    ti_gravity_end_min := f.ti_gravity_end_min
    ti_gravity_end_max := f.ti_gravity_end_max
    ti_old_part := f.ti_old_part
    ti_old_gpart := f.ti_old_gpart
    ti_old_multipole := f.ti_old_multipole
    count := f.count
    gcount := f.gcount
    scount := f.scount
    progeny := idxs }

mutual
def cell_pack : Cell → List PCell
  | .mk f p =>
    let r := cell_pack_progs p 1
    packHead f r.1 :: r.2
def cell_pack_progs : Progs → ℤ → List ℤ × List PCell
  | .pnil, _ => ([], [])
  | .pnone tl, count =>
    let r := cell_pack_progs tl count
    (-1 :: r.1, r.2)
  | .psome c tl, count =>
    let cbuf := cell_pack c
    let r := cell_pack_progs tl (count + cbuf.length)
    (count :: r.1, cbuf ++ r.2)
end

/-- The transported scalars written onto the destination cell
(cell.c lines 226-236). -/
def writePData (pc : PCell) (g : CellFields) : CellFields :=
  { g with
    h_max := pc.h_max
    ti_hydro_end_min := pc.ti_hydro_end_min
    ti_hydro_end_max := pc.ti_hydro_end_max
    ti_gravity_end_min := pc.ti_gravity_end_min
    ti_gravity_end_max := pc.ti_gravity_end_max
    ti_old_part := pc.ti_old_part
    ti_old_gpart := pc.ti_old_gpart
    ti_old_multipole := pc.ti_old_multipole
    count := pc.count
    gcount := pc.gcount
    scount := pc.scount }

/-- The fresh pool cell prepared for progeny slot `k` (cell.c lines
248-269): geometry derived from the parent by the octant rule, motion
bounds zeroed, `nodeID` inherited, everything else as the zeroed pool
state. -/
def childTemplate (g : CellFields) (k : ℕ) : CellFields :=
  { baseFields with
    loc0 := g.loc0 + (if k &&& 4 ≠ 0 then g.width0 / 2 else 0)
    loc1 := g.loc1 + (if k &&& 2 ≠ 0 then g.width1 / 2 else 0)
    loc2 := g.loc2 + (if k &&& 1 ≠ 0 then g.width2 / 2 else 0)
    width0 := g.width0 / 2
    width1 := g.width1 / 2
    width2 := g.width2 / 2
    dmin := g.dmin / 2
    depth := g.depth + 1
    nodeID := g.nodeID }

mutual
def cell_unpack : ℕ → List PCell → CellFields → Option Cell
  | 0, _, _ => none
  | _ + 1, [], _ => none
  | fuel + 1, pc :: rest, g =>
    let g2 := writePData pc g
    match cell_unpack_progs fuel pc.progeny 0 (pc :: rest) g2 with
    | none => none
    | some ps =>
      some (.mk { g2 with split := if hasKid ps then true else g2.split }
        ps)
termination_by fuel _ _ => (fuel, 0)
def cell_unpack_progs :
    ℕ → List ℤ → ℕ → List PCell → CellFields → Option Progs
  | _, [], _, _, _ => some .pnil
  | fuel, idx :: idxs, k, buf, g =>
    if 0 ≤ idx then
      match cell_unpack fuel (buf.drop idx.toNat) (childTemplate g k) with
      | none => none
      | some child =>
        match cell_unpack_progs fuel idxs (k + 1) buf g with
        | none => none
        | some tl => some (.psome child tl)
    else
      match cell_unpack_progs fuel idxs (k + 1) buf g with
      | none => none
      | some tl => some (.pnone tl)
termination_by fuel idxs _ _ _ => (fuel, idxs.length + 1)
end

mutual
/-- Spec-side description of the round trip: at every node the
transported scalars of the original tree are reproduced exactly, the
topology (which progeny slots are present) is preserved, the node is
split exactly when it has a present child, and each child's geometry is
derived from its parent by the octant rule. -/
def specUnpackResult : Cell → CellFields → Cell
  | .mk f p, g =>
    let g2 := writePData (packHead f []) g
    .mk { g2 with split := if hasKid p then true else g2.split }
      (specUnpackProgs p 0 g2)
def specUnpackProgs : Progs → ℕ → CellFields → Progs
  | .pnil, _, _ => .pnil
  | .pnone tl, k, g => .pnone (specUnpackProgs tl (k + 1) g)
  | .psome c tl, k, g =>
    .psome (specUnpackResult c (childTemplate g k))
      (specUnpackProgs tl (k + 1) g)
end

mutual
def csize : Cell → ℕ
  | .mk _ p => 1 + psize p
def psize : Progs → ℕ
  | .pnil => 0
  | .pnone tl => psize tl
  | .psome c tl => csize c + psize tl
end

mutual
theorem cell_pack_length : ∀ c : Cell, (cell_pack c).length = csize c
  | .mk f p => by
    simp [cell_pack, csize, cell_pack_progs_length p]
    omega
theorem cell_pack_progs_length :
    ∀ (p : Progs) (n : ℤ), (cell_pack_progs p n).2.length = psize p
  | .pnil, n => rfl
  | .pnone tl, n => by
    simp [cell_pack_progs, psize, cell_pack_progs_length tl]
  | .psome c tl, n => by
    simp [cell_pack_progs, psize, cell_pack_length c,
      cell_pack_progs_length tl]
end

theorem hasKid_specUnpackProgs :
    ∀ (p : Progs) (k : ℕ) (g : CellFields),
      hasKid (specUnpackProgs p k g) = hasKid p
  | .pnil, _, _ => rfl
  | .pnone tl, k, g => by
    simp [specUnpackProgs, hasKid, hasKid_specUnpackProgs tl (k + 1) g]
  | .psome c tl, k, g => by
    simp [specUnpackProgs, hasKid]

mutual
theorem unpack_pack :
    ∀ (c : Cell) (rest : List PCell) (fuel : ℕ) (g : CellFields),
      csize c ≤ fuel →
      cell_unpack fuel (cell_pack c ++ rest) g =
        some (specUnpackResult c g)
  | .mk f p, rest, fuel, g, hfuel => by
    obtain ⟨f', rfl⟩ : ∃ f'', fuel = f'' + 1 := by
      refine ⟨fuel - 1, ?_⟩
      have : 1 ≤ fuel := le_trans (by simp [csize]) hfuel
      omega
    have hps : psize p ≤ f' := by
      simp only [csize] at hfuel
      omega
    simp only [cell_pack, List.cons_append]
    rw [cell_unpack]
    have hq := unpack_pack_progs p 1 0
      (writePData (packHead f (cell_pack_progs p 1).1) g)
      [packHead f (cell_pack_progs p 1).1] rest f' hps (by norm_num) rfl
    simp only [List.singleton_append] at hq
    have hidx : (packHead f (cell_pack_progs p 1).1).progeny =
        (cell_pack_progs p 1).1 := rfl
    rw [hidx]
    rw [hq]
    simp [specUnpackResult, writePData, packHead, hasKid_specUnpackProgs]
theorem unpack_pack_progs :
    ∀ (p : Progs) (n : ℤ) (k : ℕ) (g : CellFields)
      (head rest : List PCell) (fuel : ℕ),
      psize p ≤ fuel → 0 ≤ n → head.length = n.toNat →
      cell_unpack_progs fuel (cell_pack_progs p n).1 k
          (head ++ ((cell_pack_progs p n).2 ++ rest)) g =
        some (specUnpackProgs p k g)
  | .pnil, n, k, g, head, rest, fuel, _, _, _ => by
    simp [cell_pack_progs, cell_unpack_progs, specUnpackProgs]
  | .pnone tl, n, k, g, head, rest, fuel, hf, hn, hh => by
    simp only [cell_pack_progs]
    rw [cell_unpack_progs, if_neg (by omega)]
    rw [unpack_pack_progs tl n (k + 1) g head rest fuel
      (by simpa [psize] using hf) hn hh]
    simp [specUnpackProgs]
  | .psome c tl, n, k, g, head, rest, fuel, hf, hn, hh => by
    have hcs : csize c ≤ fuel := by
      simp only [psize] at hf
      omega
    have htl : psize tl ≤ fuel := by
      simp only [psize] at hf
      omega
    simp only [cell_pack_progs]
    rw [cell_unpack_progs, if_pos hn]
    have hdrop : (head ++ ((cell_pack c ++
          (cell_pack_progs tl (n + (cell_pack c).length)).2) ++ rest)).drop
          n.toNat =
        cell_pack c ++
          ((cell_pack_progs tl (n + (cell_pack c).length)).2 ++ rest) := by
      rw [← hh, List.drop_left]
      simp [List.append_assoc]
    rw [hdrop,
      unpack_pack c
        ((cell_pack_progs tl (n + (cell_pack c).length)).2 ++ rest) fuel
        (childTemplate g k) hcs]
    have hbuf : head ++ ((cell_pack c ++
          (cell_pack_progs tl (n + (cell_pack c).length)).2) ++ rest) =
        (head ++ cell_pack c) ++
          ((cell_pack_progs tl (n + (cell_pack c).length)).2 ++ rest) := by
      simp [List.append_assoc]
    rw [hbuf,
      unpack_pack_progs tl (n + (cell_pack c).length) (k + 1) g
        (head ++ cell_pack c) rest fuel htl (by omega)
        (by simp [List.length_append, hh]; omega)]
    simp [specUnpackProgs]
end

/-- C6: unpacking the flat sequence produced by `cell_pack` into a fresh
root reproduces, at every node, the tree topology, the counts (`count`,
`gcount`, `scount`), `h_max` and the temporal stamps exactly, with each
child's `loc`, `width`, `dmin` and `depth` derived from its parent by
the octant rule — the round trip equals the spec-side description
`specUnpackResult`, for any root template `g`. -/
theorem claim_C6 (c : Cell) (g : CellFields) :
    cell_unpack (cell_pack c).length (cell_pack c) g =
      some (specUnpackResult c g) := by
  have h := unpack_pack c [] (cell_pack c).length g (by
    rw [cell_pack_length])
  simpa using h

end Swift
